import Mathlib

/-!
Verification of `terraform.py` (nerdtronik/terraform-python): a shallow
embedding of the Terraform CLI wrapper's argument-construction engine,
version gating, variable serialization and streamed-JSON apply aggregation,
with theorems settling the frozen claims about them.

Conventions of the embedding:
* Python `None` / optional parameters become `Option`.
* Python values that cross the JSON boundary become `JVal` (JSON values with
  integer numerals, the only numerals the wrapped streams use; dictionaries
  are association lists in insertion order, as Python dicts are).
* Python exceptions become `Except` / `Option` results.
* Machine floats (command durations) are carried opaquely as `Nat`; no claim
  computes with them.
-/

namespace Terraform

/-! ## Decimal numerals (`str(int)` and the integer part of `json.dumps`) -/

/-- The decimal digit character for `n < 10` (used for `n % 10`). -/
def digitChar (n : Nat) : Char :=
  match n with
  | 0 => '0' | 1 => '1' | 2 => '2' | 3 => '3' | 4 => '4'
  | 5 => '5' | 6 => '6' | 7 => '7' | 8 => '8' | _ => '9'

/-- Worker for `natToCharList`: division by 10 terminates structurally on a
fuel that only needs to exceed the digit count (`natToCharList` hands it
`n + 1`, always enough since `n / 10 < n` for positive `n`). -/
def natToCharListAux (fuel : Nat) (n : Nat) : List Char :=
  match fuel with
  | 0 => []
  | fuel + 1 =>
    if n < 10 then [digitChar n]
    else natToCharListAux fuel (n / 10) ++ [digitChar (n % 10)]

/-- Decimal digits of a natural number, most significant first. -/
def natToCharList (n : Nat) : List Char :=
  natToCharListAux (n + 1) n

/-- Python's decimal rendering of an `int` (`str(i)` / `repr(i)`). -/
def intToCharList (i : Int) : List Char :=
  if i < 0 then '-' :: natToCharList i.natAbs else natToCharList i.natAbs

/-! ## JSON values

The universe of values the wrapper moves across the JSON boundary: the
variable dictionaries fed to `-var` and the decoded apply event stream.
Numbers are integers (the streams and claims use no floats) and objects are
association lists in insertion order. -/

inductive JVal where
  | null : JVal
  | bool (b : Bool) : JVal
  | num (i : Int) : JVal
  | str (s : String) : JVal
  | arr (xs : List JVal) : JVal
  | obj (kvs : List (String × JVal)) : JVal
deriving Inhabited

mutual
/-- Structural size of a JSON value: every node counts 1, numerals and
strings count 1 whatever their length.  This is the parser fuel a value
needs, unlike `sizeOf`, which grows with the magnitude of numerals. -/
def JSize : JVal → Nat
  | .null | .bool _ | .num _ | .str _ => 1
  | .arr xs => 1 + ESize xs
  | .obj kvs => 1 + MSize kvs

/-- Fuel needed by the array-element loop. -/
def ESize : List JVal → Nat
  | [] => 0
  | x :: xs => 1 + max (JSize x) (ESize xs)

/-- Fuel needed by the object-member loop. -/
def MSize : List (String × JVal) → Nat
  | [] => 0
  | (_, v) :: kvs => 1 + max (JSize v) (MSize kvs)
end

/-! ## `json.dumps` (default options: separators `", "` and `": "`) -/

/-- JSON escaping of one character, as `json.dumps` performs it: the two
mandatory escapes, the short control escapes, `\u00XX` for the remaining
control characters, and the character itself otherwise.  (`json.dumps`
additionally `\uXXXX`-escapes non-ASCII characters by default; both spellings
decode to the same character, and no claim inspects non-ASCII output, so the
embedding emits those characters directly.) -/
def escChar (c : Char) : List Char :=
  if c = '"' then ['\\', '"']
  else if c = '\\' then ['\\', '\\']
  else if c = '\n' then ['\\', 'n']
  else if c = '\t' then ['\\', 't']
  else if c = '\r' then ['\\', 'r']
  else if c = '\x08' then ['\\', 'b']
  else if c = '\x0c' then ['\\', 'f']
  else if c.toNat < 32 then
    ['\\', 'u', '0', '0', digitHex (c.toNat / 16), digitHex (c.toNat % 16)]
  else [c]
where
  /-- Lower-case hexadecimal digit for `n < 16`. -/
  digitHex (n : Nat) : Char :=
    match n with
    | 0 => '0' | 1 => '1' | 2 => '2' | 3 => '3' | 4 => '4'
    | 5 => '5' | 6 => '6' | 7 => '7' | 8 => '8' | 9 => '9'
    | 10 => 'a' | 11 => 'b' | 12 => 'c' | 13 => 'd' | 14 => 'e' | _ => 'f'

/-- A dumped JSON string literal: quote, escaped characters, quote. -/
def dumpStr (s : String) : List Char :=
  '"' :: s.data.flatMap escChar ++ ['"']

mutual
/-- `json.dumps` of a value, as a character list. -/
def dumpChars (v : JVal) : List Char :=
  match v with
  | .null => "null".data
  | .bool true => "true".data
  | .bool false => "false".data
  | .num i => intToCharList i
  | .str s => dumpStr s
  | .arr xs => '[' :: dumpList xs ++ [']']
  | .obj kvs => '{' :: dumpObj kvs ++ ['}']
termination_by structural v

/-- Array elements joined by `", "` (the default separator). -/
def dumpList (xs : List JVal) : List Char :=
  match xs with
  | [] => []
  | [x] => dumpChars x
  | x :: y :: xs => dumpChars x ++ ',' :: ' ' :: dumpList (y :: xs)
termination_by structural xs

/-- Object members `"key": value` joined by `", "`. -/
def dumpObj (kvs : List (String × JVal)) : List Char :=
  match kvs with
  | [] => []
  | [(k, v)] => dumpStr k ++ ':' :: ' ' :: dumpChars v
  | (k, v) :: m :: kvs => dumpStr k ++ ':' :: ' ' :: dumpChars v ++ ',' :: ' ' :: dumpObj (m :: kvs)
termination_by structural kvs
end

/-- `json.dumps` with its default options, as used by `_parse_vars`. -/
def jsonDumps (v : JVal) : String := ⟨dumpChars v⟩

/-! ## `json.loads`

A recursive-descent decoder for the JSON subset the wrapper exchanges
(every construct of JSON except fractional/exponent numerals, which none of
the wrapped streams or claims use; a fractional numeral simply fails to
decode).  Recursion over nested values is paid from an explicit fuel that
`jsonLoads` sets to more than the input length, which `parse_dump` shows is
always enough. -/

/-- The JSON inter-token whitespace characters accepted by `json.loads`. -/
def isWsChar (c : Char) : Bool :=
  c = ' ' || c = '\t' || c = '\n' || c = '\r'

/-- Drop leading JSON whitespace. -/
def skipWs : List Char → List Char
  | [] => []
  | c :: cs => if isWsChar c then skipWs cs else c :: cs

/-- The value of a hexadecimal digit character, if it is one. -/
def hexVal (c : Char) : Option Nat :=
  if '0' ≤ c ∧ c ≤ '9' then some (c.toNat - '0'.toNat)
  else if 'a' ≤ c ∧ c ≤ 'f' then some (c.toNat - 'a'.toNat + 10)
  else if 'A' ≤ c ∧ c ≤ 'F' then some (c.toNat - 'A'.toNat + 10)
  else none

/-- Decode the body of a JSON string literal (the opening quote already
consumed), unescaping as `json.loads` does; in strict mode (the default) a
raw control character in a string is an error. -/
def parseStrAux (acc : List Char) (l : List Char) : Option (String × List Char) :=
  match l with
  | [] => none
  | c :: cs =>
    if c = '"' then some (⟨acc.reverse⟩, cs)
    else if c = '\\' then
      match cs with
      | [] => none
      | e :: cs =>
        if e = '"' then parseStrAux ('"' :: acc) cs
        else if e = '\\' then parseStrAux ('\\' :: acc) cs
        else if e = '/' then parseStrAux ('/' :: acc) cs
        else if e = 'n' then parseStrAux ('\n' :: acc) cs
        else if e = 't' then parseStrAux ('\t' :: acc) cs
        else if e = 'r' then parseStrAux ('\r' :: acc) cs
        else if e = 'b' then parseStrAux ('\x08' :: acc) cs
        else if e = 'f' then parseStrAux ('\x0c' :: acc) cs
        else if e = 'u' then
          match cs with
          | h1 :: h2 :: h3 :: h4 :: cs =>
            match hexVal h1, hexVal h2, hexVal h3, hexVal h4 with
            | some a, some b, some c2, some d =>
              let n := ((a * 16 + b) * 16 + c2) * 16 + d
              if _h : n.isValidChar then parseStrAux (Char.ofNat n :: acc) cs
              else none
            | _, _, _, _ => none
          | _ => none
        else none
    else if c.toNat < 32 then none
    else parseStrAux (c :: acc) cs
termination_by structural l

/-- Greedily consume decimal digits, folding them onto `acc`. -/
def parseDigits (l : List Char) (acc : Nat) : Nat × List Char :=
  match l with
  | [] => (acc, [])
  | c :: cs =>
    if c.isDigit then parseDigits cs (acc * 10 + (c.toNat - '0'.toNat))
    else (acc, c :: cs)

mutual
/-- Decode one JSON value, returning it with the unconsumed suffix. -/
def parseValue (fuel : Nat) (l : List Char) : Option (JVal × List Char) :=
  match fuel with
  | 0 => none
  | fuel + 1 =>
    match skipWs l with
    | [] => none
    | c :: cs =>
      if c = '"' then (parseStrAux [] cs).map fun p => (.str p.1, p.2)
      else if c = '{' then
        match skipWs cs with
        | [] => none
        | c2 :: cs2 =>
          if c2 = '}' then some (.obj [], cs2)
          else (parseMembers fuel (c2 :: cs2)).map fun p => (.obj p.1, p.2)
      else if c = '[' then
        match skipWs cs with
        | [] => none
        | c2 :: cs2 =>
          if c2 = ']' then some (.arr [], cs2)
          else (parseElems fuel (c2 :: cs2)).map fun p => (.arr p.1, p.2)
      else if c = 't' then
        match cs with
        | 'r' :: 'u' :: 'e' :: rest => some (.bool true, rest)
        | _ => none
      else if c = 'f' then
        match cs with
        | 'a' :: 'l' :: 's' :: 'e' :: rest => some (.bool false, rest)
        | _ => none
      else if c = 'n' then
        match cs with
        | 'u' :: 'l' :: 'l' :: rest => some (.null, rest)
        | _ => none
      else if c = '-' then
        match cs with
        | c2 :: cs2 =>
          if c2.isDigit then
            let p := parseDigits cs2 (c2.toNat - '0'.toNat)
            some (.num (-(p.1 : Int)), p.2)
          else none
        | [] => none
      else if c.isDigit then
        let p := parseDigits cs (c.toNat - '0'.toNat)
        some (.num (p.1 : Int), p.2)
      else none
termination_by structural fuel

/-- Decode `"key": value` members up to the closing `}` (consumed). -/
def parseMembers (fuel : Nat) (l : List Char) : Option (List (String × JVal) × List Char) :=
  match fuel with
  | 0 => none
  | fuel + 1 =>
    match skipWs l with
    | [] => none
    | c :: cs =>
      if c = '"' then
        match parseStrAux [] cs with
        | none => none
        | some (k, cs1) =>
          match skipWs cs1 with
          | [] => none
          | c2 :: cs2 =>
            if c2 = ':' then
              match parseValue fuel cs2 with
              | none => none
              | some (v, cs3) =>
                match skipWs cs3 with
                | [] => none
                | c4 :: cs4 =>
                  if c4 = ',' then
                    (parseMembers fuel cs4).map fun p => ((k, v) :: p.1, p.2)
                  else if c4 = '}' then some ([(k, v)], cs4)
                  else none
            else none
      else none
termination_by structural fuel

/-- Decode array elements up to the closing `]` (consumed). -/
def parseElems (fuel : Nat) (l : List Char) : Option (List JVal × List Char) :=
  match fuel with
  | 0 => none
  | fuel + 1 =>
    match parseValue fuel l with
    | none => none
    | some (v, cs) =>
      match skipWs cs with
      | [] => none
      | c :: cs1 =>
        if c = ',' then (parseElems fuel cs1).map fun p => (v :: p.1, p.2)
        else if c = ']' then some ([v], cs1)
        else none
termination_by structural fuel
end

/-- `json.loads`: decode a whole string, requiring only whitespace after the
value, with fuel that `parse_dump` shows suffices for every dumped value. -/
def jsonLoads (s : String) : Option JVal :=
  match parseValue (s.data.length + 1) s.data with
  | none => none
  | some (v, rest) => if skipWs rest = [] then some v else none

/-! ## Dictionary access on decoded values

`j[k]` on a decoded Python value: `none` models the `KeyError` of a missing
key and the `TypeError` of subscripting a non-dict with a string key.  When
a JSON text repeats a key, Python's decoder keeps the value written last, so
the lookup takes the last matching pair. -/

/-- Python `j[k]` for a string key on a decoded JSON value. -/
def jIndex (j : JVal) (k : String) : Option JVal :=
  match j with
  | .obj kvs => kvs.foldl (fun acc p => if p.1 = k then some p.2 else acc) none
  | _ => none

mutual
/-- Boolean equality of JSON values (Python `==` restricted to this
universe), used only to locate an existing dictionary key. -/
def jvalEqb : JVal → JVal → Bool
  | .null, .null => true
  | .bool a, .bool b => a = b
  | .num a, .num b => a = b
  | .str a, .str b => a = b
  | .arr xs, .arr ys => jlistEqb xs ys
  | .obj xs, .obj ys => jobjEqb xs ys
  | _, _ => false

/-- Elementwise `jvalEqb` on lists. -/
def jlistEqb : List JVal → List JVal → Bool
  | [], [] => true
  | x :: xs, y :: ys => jvalEqb x y && jlistEqb xs ys
  | _, _ => false

/-- Elementwise `jvalEqb` on members. -/
def jobjEqb : List (String × JVal) → List (String × JVal) → Bool
  | [], [] => true
  | (k, v) :: xs, (k', v') :: ys => k = k' && jvalEqb v v' && jobjEqb xs ys
  | _, _ => false
end

/-- Python `d[k] = v` on an insertion-ordered dictionary with `JVal` keys
(the per-resource map of `_apply_callback`): an existing key keeps its
position and takes the new value, a new key is appended. -/
def dictSet (kvs : List (JVal × JVal)) (k v : JVal) : List (JVal × JVal) :=
  match kvs with
  | [] => [(k, v)]
  | (k', v') :: rest =>
    if jvalEqb k k' then (k', v) :: rest else (k', v') :: dictSet rest k v

/-! ## `str.splitlines` -/

/-- The line-break characters `str.splitlines` recognizes beyond `\n`,
`\r\n` and `\r`: vertical tab, form feed, the file/group/record separators,
next line, and the Unicode line/paragraph separators. -/
def isOtherLineBreak (c : Char) : Bool :=
  c = '\x0b' || c = '\x0c' || c = '\x1c' || c = '\x1d' || c = '\x1e' ||
  c = '\u0085' || c = ' ' || c = ' '

/-- Worker for `pySplitlines`: `cur` holds the current line reversed. -/
def splitlinesAux (cur : List Char) (l : List Char) : List String :=
  match l with
  | [] => if cur = [] then [] else [⟨cur.reverse⟩]
  | '\r' :: '\n' :: cs => ⟨cur.reverse⟩ :: splitlinesAux [] cs
  | '\r' :: cs => ⟨cur.reverse⟩ :: splitlinesAux [] cs
  | '\n' :: cs => ⟨cur.reverse⟩ :: splitlinesAux [] cs
  | c :: cs =>
    if isOtherLineBreak c then ⟨cur.reverse⟩ :: splitlinesAux [] cs
    else splitlinesAux (c :: cur) cs
termination_by structural l

/-- Python `str.splitlines()`: split at every line break, no terminator
required after the last line, and no empty final line. -/
def pySplitlines (s : String) : List String := splitlinesAux [] s.data

/-! ## The apply stream aggregator (`_apply_callback`) and the per-line
callback (`_apply_line_callback`) -/

/-- The aggregate `_apply_callback` builds: a Python dict with at most the
keys `outputs`, `changes` and `result`; an `Option` field is `none` exactly
when the key is absent. -/
structure ApplyResult where
  outputs : Option JVal
  changes : Option JVal
  result : Option (List (JVal × JVal))

/-- The empty aggregate (`result = {}` at the top of `_apply_callback`). -/
def ApplyResult.empty : ApplyResult := ⟨none, none, none⟩

/-- The `type == "apply_complete"` branch, separated because its partial
mutation survives a failing address lookup. -/
def applyCompleteStep (acc : ApplyResult) (j : JVal) : ApplyResult :=
  let acc := if acc.result.isNone then { acc with result := some [] } else acc
  match jIndex j "hook" with
  | none => acc
  | some hook =>
    match jIndex hook "resource" with
    | none => acc
    | some r =>
      match jIndex r "addr" with
      | none => acc
      | some addr =>
        match addr with
        | .arr _ | .obj _ => acc
        | _ => { acc with result := some (dictSet (acc.result.getD []) addr hook) }

/-- One iteration of the `for line in stdout.splitlines()` loop of
`_apply_callback`.  The whole body sits under `try: ... except: pass`, so
any failed decode or lookup abandons the line, keeping whatever the body
mutated before the failure — in particular `result["result"] = {}` is
installed before the address is extracted and survives a failing
extraction. -/
def applyStep (acc : ApplyResult) (line : String) : ApplyResult :=
  match jsonLoads line with
  | none => acc
  | some j =>
    match jIndex j "type" with
    | none => acc
    | some t =>
      match t with
      | .str tv =>
        if tv = "outputs" then
          match jIndex j "outputs" with
          | none => acc
          | some o => { acc with outputs := some o }
        else if tv = "change_summary" then
          match jIndex j "changes" with
          | none => acc
          | some c => { acc with changes := some c }
        else if tv = "apply_complete" then
          applyCompleteStep acc j
        else acc
      | _ => acc

/-- `Terraform._apply_callback`: fold the apply event stream, line by line,
into the aggregate. -/
def applyCallback (stdout : String) : ApplyResult :=
  (pySplitlines stdout).foldl applyStep ApplyResult.empty

/-- `Terraform._apply_line_callback`: `.error ()` models an uncaught Python
exception (the `json.loads` decode error on a malformed line, or the
`KeyError`/`TypeError` of `stdout["@message"]`); `.ok ()` a normal return.
A `None` or empty `stdout` is falsy and skips the body. -/
def applyLineCallback (stdout : Option String) : Except Unit Unit :=
  match stdout with
  | none => .ok ()
  | some s =>
    if s.isEmpty then .ok ()
    else
      match jsonLoads s with
      | none => .error ()
      | some j =>
        match jIndex j "@message" with
        | none => .error ()
        | some _ => .ok ()

/-! ## The option table (`TERRAFORM_ARGS`) and the argument builder -/

/-- The fixed option table, in source order: logical option name to flag
template.  A template ending in `=` takes a value; the others are bare or
verbatim flags. -/
def TERRAFORM_ARGS : List (String × String) :=
  [("color", "-no-color"),
   ("lock", "-lock="),
   ("lock_timeout", "-lock-timeout="),
   ("input", "-input="),
   ("upgrade", "-upgrade"),
   ("from_module", "-from-module="),
   ("reconfigure", "-reconfigure"),
   ("migrate_state", "-migrate-state"),
   ("force_copy", "-force-copy"),
   ("backend", "-backend="),
   ("backend_config", "-backend-config="),
   ("get", "-get="),
   ("get_plugins", "-get-plugins="),
   ("plugin_dir", "-plugin-dir="),
   ("lockfile", "-lockfile="),
   ("readonly", "-lockfile=readonly"),
   ("chdir", "-chdir="),
   ("update", "-update"),
   ("destroy", "-destroy"),
   ("out", "-out="),
   ("refresh_only", "-refresh-only"),
   ("refresh", "-refresh="),
   ("replace", "-replace="),
   ("target", "-target="),
   ("var", "-var="),
   ("var_file", "-var-file="),
   ("compact_warnings", "-compact-warnings"),
   ("json", "-json"),
   ("parallelism", "-parallelism="),
   ("auto_approve", "-auto-approve"),
   ("state", "-state="),
   ("state_out", "-state-out="),
   ("backup", "-backup="),
   ("list", "-list="),
   ("diff", "-diff"),
   ("write", "-write="),
   ("check", "-check"),
   ("recursive", "-recursive"),
   ("raw", "-raw")]

/-- Dictionary lookup `TERRAFORM_ARGS[arg]`; `none` models the `KeyError`
an unknown option name raises (a fatal programming error). -/
def lookupArg (arg : String) : Option String :=
  (TERRAFORM_ARGS.find? fun p => p.1 = arg).map Prod.snd

/-- The Python values `_build_arg` receives: `None`, a bool, a str or an
int. -/
inductive PyVal where
  | none : PyVal
  | bool (b : Bool) : PyVal
  | str (s : String) : PyVal
  | int (i : Int) : PyVal
deriving DecidableEq

/-- Python `str(value)` on this universe. -/
def pyStr : PyVal → String
  | .none => "None"
  | .bool true => "True"
  | .bool false => "False"
  | .str s => s
  | .int i => ⟨intToCharList i⟩

/-- `Terraform._build_arg`: format one CLI argument from the option table.
`none` is the `KeyError` of an unknown name; `some tok` the returned token,
with `some ""` the omitted flag. -/
def buildArg (arg : String) (value : PyVal) : Option String :=
  match lookupArg arg with
  | .none => .none
  | .some res =>
    if res.back = '=' ∧ value ≠ .none then
      match value with
      | .bool b => some (res ++ if b then "true" else "false")
      | .str s => if s.length = 0 then some "" else some (res ++ s)
      | v => if (pyStr v).length > 0 then some (res ++ pyStr v) else some res
    else
      match value with
      | .bool b => some (if b then res else "")
      | _ => some ""

/-- `_build_arg` at a name present in the table (every name the commands
use is; an absent one would crash the Python process with `KeyError`). -/
def buildArgD (arg : String) (value : PyVal) : String :=
  (buildArg arg value).getD ""

/-- `shlex.quote`: unchanged when every character is shell-safe, otherwise
wrapped in single quotes with embedded single quotes rewritten.  (Python's
safe set is `\w` plus `@ % + = : , . / -`; word characters here are taken
as ASCII alphanumerics, all that the wrapper's file names use.) -/
def shlexQuote (s : String) : String :=
  if s.isEmpty then "''"
  else if s.data.all fun c =>
      c.isAlphanum || c = '_' || c = '@' || c = '%' || c = '+' || c = '=' ||
      c = ':' || c = ',' || c = '.' || c = '/' || c = '-' then s
  else "'" ++ s.replace "'" "'\"'\"'" ++ "'"

/-! ## The wrapper instance and the per-command assemblies -/

/-- The parsed engine version (`self._version`): the three integers from
the `D.D.D` regex (all zero when the version string does not match) and the
raw version string used in warnings. -/
structure TFVersion where
  major : Nat
  minor : Nat
  patch : Nat
  version_str : String

/-- The wrapper-instance state a command assembly reads (`self._lock`,
`self._lock_timeout`, `self._input`, `self._color`, `self._paralellism`
(sic), `self._planfile`, `self._version`). -/
structure TF where
  _lock : Bool
  _lock_timeout : Int
  _input : Bool
  _color : Bool
  _paralellism : Int
  _planfile : String
  _version : TFVersion

/-- A wrapper instance with the `__init__` defaults (`lock=True`,
`lock_timeout=0`, `input=False`, `parallelism=10`, `color=True`,
`planfile="plan.tfplan"`) and the given detected version. -/
def tfMk (v : TFVersion) : TF :=
  ⟨true, 0, false, true, 10, "plan.tfplan", v⟩

/-- The truth value of the Python test `self.lock is False` in
`_default_args`: `self.lock` names the *method* `Terraform.lock`, not the
field `self._lock`, and a bound method is never the object `False`, so the
test is constantly false whatever the instance holds. -/
def tfSelfLockIsFalse (_self : TF) : Bool := false

/-- `Terraform._default_args`: the shared color/lock/lock-timeout/input
flags, per-call overrides first. -/
def defaultArgs (self : TF) (color : Option Bool) (lock : Option Bool)
    (lock_timeout : Option Int) (input : Option Bool) : List String :=
  let args : List String := []
  let args := match color with
    | some c => args ++ [buildArgD "color" (.bool c)]
    | none => if self._color = false then args ++ [(lookupArg "color").getD ""] else args
  let args :=
    if lock = some false then args ++ [buildArgD "lock" (.bool false)]
    else if tfSelfLockIsFalse self then args ++ [buildArgD "lock" (.bool self._lock)]
    else args
  let args :=
    if (match lock_timeout with | some t => decide (0 < t) | none => false) = true then
      args ++ [buildArgD "lock_timeout" (.int (lock_timeout.getD 0))]
    else if 0 < self._lock_timeout then
      args ++ [buildArgD "lock_timeout" (.int self._lock_timeout)]
    else args
  let args := match input with
    | some i => args ++ [buildArgD "input" (.bool i)]
    | none => if self._input = false then args ++ [buildArgD "input" (.bool self._input)] else args
  args

/-! ## `Terraform._parse_vars` (the variable serializer) -/

/-- `re.sub(r"\"", '\\"', value)`: put a backslash before every double
quote (and only before those — embedded backslashes pass through
untouched). -/
def escapeQuotes (l : List Char) : List Char :=
  l.flatMap fun c => if c = '"' then ['\\', '"'] else [c]

/-- The encoded value portion of one `-var key=value` token: strings are
quoted with quotes backslash-escaped; dicts, lists and tuples are
`json.dumps`-encoded; anything else is `str(value)`.  (A Python tuple also
takes the `json.dumps` branch; its JSON form is an array, so `.arr` covers
it.) -/
def encodeVar (v : JVal) : String :=
  match v with
  | .str s => ⟨'"' :: escapeQuotes s.data ++ ['"']⟩
  | .obj _ | .arr _ => jsonDumps v
  | .null => "None"
  | .bool true => "True"
  | .bool false => "False"
  | .num i => ⟨intToCharList i⟩

/-- `Terraform._parse_vars`: a `-var` marker and a `key=value` token per
entry, in dictionary (insertion) order; an empty or absent mapping yields
no tokens. -/
def parseVars (vars : List (String × JVal)) : List String :=
  match vars with
  | [] => []
  | (key, value) :: rest => ["-var", key ++ "=" ++ encodeVar value] ++ parseVars rest

/-! ## Subprocess results and the failure taxonomy -/

/-- What `run_command` reports back (`CommandResult`): exit success, the
captured streams, and the duration (carried opaquely). -/
structure CommandResult where
  success : Bool
  stdout : String
  stderr : String
  duration : Nat

/-- The raised failures the claims inspect, with the fields the Python
exceptions carry, plus the `json.loads` decode error that `show` lets
propagate. -/
inductive TfError where
  | destroyError (message : String) (command : String) (stderr : String) (duration : Nat)
  | planError (message : String) (command : String) (stderr : String) (duration : Nat)
  | jsonDecode (payload : String)

/-! ## `plan` -/

/-- The keyword arguments of `Terraform.plan` that shape the argument
vector, with their Python defaults.  (`chdir` only selects the working
directory and never enters the vector; `lock_timeout` is typed `str` in the
source but compared with `> 0`, so only numeric values avoid a
`TypeError`.) -/
structure PlanParams where
  out : Option String := Option.none
  destroy : Bool := false
  refresh : Option Bool := some true
  refresh_only : Bool := false
  replace : Option String := Option.none
  target : Option String := Option.none
  vars : List (String × JVal) := []
  var_file : Option String := Option.none
  compact_warnings : Bool := false
  input : Option Bool := Option.none
  json : Bool := false
  lock : Option Bool := Option.none
  lock_timeout : Option Int := Option.none
  color : Option Bool := Option.none
  parallelism : Option Int := Option.none
  state : Option String := Option.none

/-- What `plan` hands to the executor and the warnings it logs first. -/
structure PlanAssembly where
  cmd : List String
  warnings : List String

/-- An optional Python bool as a `_build_arg` value. -/
def optBoolPy : Option Bool → PyVal
  | Option.none => .none
  | some b => .bool b

/-- An optional Python str as a `_build_arg` value. -/
def optStrPy : Option String → PyVal
  | Option.none => .none
  | some s => .str s

/-- Python truthiness of an optional int (`not parallelism` is true for
`None` and for `0`). -/
def pyFalsyInt : Option Int → Bool
  | Option.none => true
  | some i => i = 0

/-- Python truthiness of an optional str (`not out` is true for `None` and
for `""`). -/
def pyFalsyStr : Option String → Bool
  | Option.none => true
  | some s => s.isEmpty

/-- The version-gate warning `plan` logs for `-refresh-only`. -/
def refreshOnlyWarnMsg (self : TF) : String :=
  "the option '-refresh-only' is supported since the version 1.1.0, and your version is "
    ++ self._version.version_str

/-- The version-gate warning `plan` logs for `-json`. -/
def jsonWarnMsg (self : TF) : String :=
  "the option '-json' is supported since the version 1.0.0, and your version is "
    ++ self._version.version_str

/-- `Terraform.plan`, up to the `Terraform.cmd` call: the argument vector
in source order and the warnings logged while assembling it.  The version
gates test `major >= 1 and minor >= 0` exactly as the source does. -/
def planAssemble (self : TF) (p : PlanParams) : PlanAssembly :=
  let cmd := ["plan"] ++ defaultArgs self p.color p.lock p.lock_timeout p.input
  let cmd := cmd ++
    [if pyFalsyStr p.out then buildArgD "out" (.str self._planfile)
     else buildArgD "out" (.str (p.out.getD ""))]
  let gate := 1 ≤ self._version.major ∧ 0 ≤ self._version.minor
  let (cmd, warnings) :=
    if gate then (cmd ++ [buildArgD "refresh_only" (.bool p.refresh_only)], ([] : List String))
    else (cmd, [refreshOnlyWarnMsg self])
  let (cmd, warnings) :=
    if gate then (cmd ++ [buildArgD "json" (.bool p.json)], warnings)
    else (cmd, warnings ++ [jsonWarnMsg self])
  let cmd := cmd ++
    [if pyFalsyInt p.parallelism then buildArgD "parallelism" (.int self._paralellism)
     else buildArgD "parallelism" (.int (p.parallelism.getD 0))]
  let cmd := cmd ++
    [buildArgD "destroy" (.bool p.destroy),
     buildArgD "refresh" (optBoolPy p.refresh),
     buildArgD "replace" (optStrPy p.replace),
     buildArgD "target" (optStrPy p.target),
     buildArgD "var_file" (optStrPy p.var_file),
     buildArgD "state" (optStrPy p.state),
     buildArgD "compact_warnings" (.bool p.compact_warnings)]
  let cmd := cmd ++ parseVars p.vars
  ⟨cmd, warnings⟩

/-- The result handling of `plan`: a failing exit raises
`TerraformPlanError`, a succeeding one returns `result.success`. -/
def planRun (self : TF) (p : PlanParams) (r : CommandResult) : Except TfError Bool :=
  if r.success then .ok r.success
  else .error (.planError "Failed to run plan terraform" "plan" r.stderr r.duration)

/-! ## `apply` -/

/-- The keyword arguments of `Terraform.apply` that shape the vector and
the callback installation, with their Python defaults. -/
structure ApplyParams where
  plan_file : Option String := Option.none
  auto_approve : Bool := false
  compact_warnings : Bool := false
  input : Option Bool := Option.none
  json : Bool := false
  lock : Option Bool := Option.none
  lock_timeout : Option Int := Option.none
  color : Option Bool := Option.none
  parallelism : Option Int := Option.none
  state : Option String := Option.none
  state_out : Option String := Option.none
  backup : Option String := Option.none

/-- What `apply` hands to the executor: the argument vector, whether the
per-line callback (`_apply_line_callback`) and the completion callback
(`_apply_callback`) are installed, and the `show_output` echo flag
(`not json and major >= 1` in the source). -/
structure ApplyAssembly where
  cmd : List String
  lineCallbackInstalled : Bool
  callbackInstalled : Bool
  showOutput : Bool

/-- `Terraform.apply`, up to the `Terraform.cmd` call. -/
def applyAssemble (self : TF) (p : ApplyParams) : ApplyAssembly :=
  let cmd := ["apply"] ++ defaultArgs self p.color p.lock p.lock_timeout p.input
  let (cmd, lineCb, cb) :=
    if 1 ≤ self._version.major then
      (cmd ++ [buildArgD "json" (.bool p.json)], p.json, p.json)
    else (cmd, false, false)
  let cmd := cmd ++
    [if pyFalsyInt p.parallelism then buildArgD "parallelism" (.int self._paralellism)
     else buildArgD "parallelism" (.int (p.parallelism.getD 0))]
  let cmd := cmd ++
    [buildArgD "auto_approve" (.bool p.auto_approve),
     buildArgD "compact_warnings" (.bool p.compact_warnings),
     buildArgD "state" (optStrPy p.state),
     buildArgD "state_out" (optStrPy p.state_out),
     buildArgD "backup" (optStrPy p.backup)]
  let cmd := cmd ++
    [if pyFalsyStr p.plan_file then shlexQuote self._planfile
     else shlexQuote (p.plan_file.getD "")]
  ⟨cmd, lineCb, cb, !p.json && decide (1 ≤ self._version.major)⟩

/-! ## `init` -/

/-- The keyword arguments of `Terraform.init` that shape the vector, with
their Python defaults. -/
structure InitParams where
  color : Option Bool := Option.none
  lock : Option Bool := Option.none
  lock_timeout : Option Int := Option.none
  input : Option Bool := Option.none
  upgrade : Bool := false
  reconfigure : Bool := false
  migrate_state : Bool := false
  force_copy : Bool := false
  backend : Bool := true
  backend_config : Option String := Option.none
  get : Bool := true
  get_plugins : Bool := true
  plugin_dir : Option String := Option.none
  readonly : Bool := false

/-- `Terraform.init`, up to the `Terraform.cmd` call. -/
def initCmd (self : TF) (p : InitParams) : List String :=
  let cmd := ["init"]
  let cmd := if p.readonly then cmd ++ [buildArgD "readonly" (.bool p.readonly)] else cmd
  let cmd := cmd ++ defaultArgs self p.color p.lock p.lock_timeout p.input
  let cmd := cmd ++
    [buildArgD "upgrade" (.bool p.upgrade),
     buildArgD "reconfigure" (.bool p.reconfigure),
     buildArgD "migrate_state" (.bool p.migrate_state),
     buildArgD "force_copy" (.bool p.force_copy),
     buildArgD "backend_config" (optStrPy p.backend_config),
     buildArgD "plugin_dir" (optStrPy p.plugin_dir)]
  let cmd := if !p.backend then cmd ++ [buildArgD "backend" (.bool p.backend)] else cmd
  let cmd := if !p.get then cmd ++ [buildArgD "get" (.bool p.get)] else cmd
  let cmd := if !p.get_plugins then cmd ++ [buildArgD "get_plugins" (.bool p.get_plugins)] else cmd
  cmd

/-! ## `destroy` -/

/-- The keyword arguments of `Terraform.destroy` that shape the vector,
with their Python defaults. -/
structure DestroyParams where
  target : Option String := Option.none
  vars : List (String × JVal) := []
  var_file : Option String := Option.none
  auto_approve : Bool := false
  input : Option Bool := Option.none
  color : Option Bool := Option.none
  lock : Option Bool := Option.none
  lock_timeout : Option Int := Option.none
  parallelism : Option Int := Option.none

/-- `Terraform.destroy`, up to the `Terraform.cmd` call. -/
def destroyCmd (self : TF) (p : DestroyParams) : List String :=
  let cmd := ["destroy"] ++ defaultArgs self p.color p.lock p.lock_timeout p.input
  let cmd := cmd ++
    [if pyFalsyInt p.parallelism then buildArgD "parallelism" (.int self._paralellism)
     else buildArgD "parallelism" (.int (p.parallelism.getD 0))]
  let cmd := cmd ++
    [buildArgD "auto_approve" (.bool p.auto_approve),
     buildArgD "target" (optStrPy p.target),
     buildArgD "var_file" (optStrPy p.var_file)]
  let cmd := cmd ++ parseVars p.vars
  cmd

/-- The result handling of `destroy`: success returns `True`, failure
raises `TerraformDestroyError` carrying the message, the joined command,
the captured stderr and the duration. -/
def destroyRun (self : TF) (p : DestroyParams) (r : CommandResult) : Except TfError Bool :=
  if r.success then .ok true
  else .error (.destroyError "Failed to destroy terraform resources"
    (String.intercalate " " (destroyCmd self p)) r.stderr r.duration)

/-! ## `show` -/

/-- What `show` returns: the decoded JSON document when `json` was
requested, the raw stdout otherwise. -/
inductive ShowOut where
  | jsonOut (v : JVal) : ShowOut
  | raw (s : String) : ShowOut

/-- The argument vector of `Terraform.show`. -/
def showCmd (self : TF) (file : Option String) (json : Bool) (color : Option Bool) :
    List String :=
  let cmd := ["show", buildArgD "json" (.bool json)]
  let cmd := cmd ++
    [match color with
     | some c => buildArgD "color" (.bool c)
     | Option.none => buildArgD "color" (.bool self._color)]
  let cmd := cmd ++
    [if pyFalsyStr file then shlexQuote self._planfile else shlexQuote (file.getD "")]
  cmd

/-- The result handling of `Terraform.show`: a failing exit is only
logged — never raised — and the captured stdout is returned, decoded by
`json.loads` when `json` was requested (a decode failure is the one error
that can escape). -/
def showRun (self : TF) (file : Option String) (json : Bool) (color : Option Bool)
    (r : CommandResult) : Except TfError ShowOut :=
  let _ := showCmd self file json color
  if json then
    match jsonLoads r.stdout with
    | some v => .ok (.jsonOut v)
    | Option.none => .error (.jsonDecode r.stdout)
  else .ok (.raw r.stdout)

/-! ## The concrete streams and instances the claims evaluate -/

/-- The `outputs` event line of the aggregator scenario. -/
def applyLine1 : String := "\x7b\"type\":\"outputs\",\"outputs\":\x7b\"a\":1\x7d\x7d"

/-- The `apply_complete` event line of the aggregator scenario. -/
def applyLine2 : String :=
  "\x7b\"type\":\"apply_complete\",\"hook\":\x7b\"resource\":\x7b\"addr\":\"x\"\x7d\x7d\x7d"

/-- The malformed third line of the aggregator scenario. -/
def applyLine3 : String := "not json"

/-- The full `hook` payload of the `apply_complete` event. -/
def hookPayload : JVal := .obj [("resource", .obj [("addr", .str "x")])]

/-- A wrapper instance at engine version 1.5.0. -/
def tf150 : TF := tfMk ⟨1, 5, 0, "1.5.0"⟩

/-- A wrapper instance at engine version 1.0.0. -/
def tf100 : TF := tfMk ⟨1, 0, 0, "1.0.0"⟩

/-- A wrapper instance at engine version 0.14.0. -/
def tf0140 : TF := tfMk ⟨0, 14, 0, "0.14.0"⟩

/-! # Supporting lemmas: the `json.dumps` / `json.loads` round trip -/

theorem digitChar_isDigit (k : Nat) : (digitChar k).isDigit = true := by
  rcases k with _|_|_|_|_|_|_|_|_|_ <;> rfl

theorem digitChar_val (k : Nat) (h : k < 10) : (digitChar k).toNat - '0'.toNat = k := by
  interval_cases k <;> rfl

theorem digitChar_not_ws (k : Nat) : isWsChar (digitChar k) = false := by
  rcases k with _|_|_|_|_|_|_|_|_|_ <;> rfl

theorem hexVal_digitHex (k : Nat) (h : k < 16) : hexVal (escChar.digitHex k) = some k := by
  interval_cases k <;> rfl

theorem isDigit_toNat {c : Char} (h : c.isDigit = true) :
    48 ≤ c.toNat ∧ c.toNat ≤ 57 := by
  simpa [Char.isDigit] using h

theorem char_ne_of_toNat {c d : Char} (h : c.toNat ≠ d.toNat) : c ≠ d :=
  fun he => h (he ▸ rfl)

/-- `skipWs` leaves a list alone when its head is not whitespace. -/
theorem skipWs_not_ws (c : Char) (h : isWsChar c = false) (cs : List Char) :
    skipWs (c :: cs) = c :: cs := by
  simp [skipWs, h]

/-- `skipWs` drops a whitespace head. -/
theorem skipWs_ws_cons (c : Char) (h : isWsChar c = true) (cs : List Char) :
    skipWs (c :: cs) = skipWs cs := by
  simp [skipWs, h]

/-- Greedy digit collection splits a digit prefix off a non-digit rest. -/
theorem parseDigits_append (ds : List Char) (hd : ∀ c ∈ ds, c.isDigit = true)
    (rest : List Char) (hr : ∀ c, rest.head? = some c → c.isDigit = false) (a : Nat) :
    parseDigits (ds ++ rest) a =
      (ds.foldl (fun acc c => acc * 10 + (c.toNat - '0'.toNat)) a, rest) := by
  induction ds generalizing a with
  | nil =>
    match rest with
    | [] => rfl
    | c :: cs => simp [parseDigits, hr c rfl]
  | cons d ds ih =>
    have hdd : d.isDigit = true := hd d (by simp)
    simp only [List.cons_append, parseDigits, hdd, if_true, List.foldl_cons]
    exact ih (fun c hc => hd c (by simp [hc])) _

/-- Every character `natToCharListAux` emits is a digit. -/
theorem natToCharListAux_digits (fuel : Nat) :
    ∀ n, ∀ c ∈ natToCharListAux fuel n, c.isDigit = true := by
  induction fuel with
  | zero => intro n c hc; simp [natToCharListAux] at hc
  | succ fuel ih =>
    intro n c hc
    by_cases h : n < 10
    · simp [natToCharListAux, h] at hc
      exact hc ▸ digitChar_isDigit n
    · simp [natToCharListAux, h] at hc
      rcases hc with hc | hc
      · exact ih _ c hc
      · exact hc ▸ digitChar_isDigit _

/-- The decimal digits of `n` fold back to `n`, from any accumulator. -/
theorem natToCharListAux_foldl (fuel : Nat) :
    ∀ n, n < fuel → ∀ a : Nat,
      (natToCharListAux fuel n).foldl (fun acc c => acc * 10 + (c.toNat - '0'.toNat)) a =
        a * 10 ^ (natToCharListAux fuel n).length + n := by
  induction fuel with
  | zero => intro n hn; omega
  | succ fuel ih =>
    intro n hn a
    by_cases h : n < 10
    · simp only [natToCharListAux, if_pos h, List.foldl_cons, List.foldl_nil,
        List.length_cons, List.length_nil, zero_add, pow_one]
      rw [digitChar_val n h]
    · have hdiv : n / 10 < fuel := by
        have h1 : n / 10 < n := Nat.div_lt_self (by omega) (by omega)
        omega
      simp only [natToCharListAux, if_neg h, List.foldl_append, List.foldl_cons,
        List.foldl_nil, List.length_append, List.length_cons, List.length_nil]
      rw [ih (n / 10) hdiv a, digitChar_val _ (Nat.mod_lt _ (by omega))]
      have hdistrib : (a * 10 ^ (natToCharListAux fuel (n / 10)).length + n / 10) * 10 + n % 10 =
          a * (10 ^ (natToCharListAux fuel (n / 10)).length * 10) + (n / 10 * 10 + n % 10) := by
        ring
      rw [hdistrib, ← pow_succ]
      have hnm : n / 10 * 10 + n % 10 = n := by omega
      rw [hnm]

/-- `natToCharList n` is a digit string that greedy parsing reads back as
`n`, stopping exactly at a non-digit rest. -/
theorem parseDigits_natToCharList (n : Nat) (rest : List Char)
    (hr : ∀ c, rest.head? = some c → c.isDigit = false) :
    parseDigits (natToCharList n ++ rest) 0 = (n, rest) := by
  unfold natToCharList
  rw [parseDigits_append _ (natToCharListAux_digits _ n) rest hr 0]
  rw [natToCharListAux_foldl (n + 1) n (by omega) 0]
  simp

/-- `natToCharList` always starts with a digit. -/
theorem natToCharList_head (n : Nat) :
    ∃ c cs, natToCharList n = c :: cs ∧ c.isDigit = true := by
  unfold natToCharList
  have h9 : ∀ fuel n, n < fuel → ∃ c cs, natToCharListAux fuel n = c :: cs := by
    intro fuel
    induction fuel with
    | zero => intro n hn; omega
    | succ fuel ih =>
      intro n hn
      by_cases h : n < 10
      · exact ⟨digitChar n, [], by simp [natToCharListAux, h]⟩
      · have hdiv : n / 10 < fuel := by
          have := Nat.div_lt_self (show 0 < n by omega) (show 1 < 10 by omega)
          omega
        obtain ⟨c, cs, hc⟩ := ih (n / 10) hdiv
        exact ⟨c, cs ++ [digitChar (n % 10)], by simp [natToCharListAux, h, hc]⟩
  obtain ⟨c, cs, hc⟩ := h9 (n + 1) n (by omega)
  exact ⟨c, cs, hc, natToCharListAux_digits (n + 1) n c (by simp [hc])⟩

/-! ## Single-step unfolding lemmas for the decoder

The parsers recurse structurally, so their defining equations only reduce
definitionally on closed inputs; these lemmas restate one unfolding step
for symbolic suffixes. -/

theorem parseStrAux_step_close (acc X : List Char) :
    parseStrAux acc ('"' :: X) = some (⟨acc.reverse⟩, X) := by
  conv_lhs => rw [parseStrAux.eq_def]
  rfl

theorem parseStrAux_step_quote (acc X : List Char) :
    parseStrAux acc ('\\' :: '"' :: X) = parseStrAux ('"' :: acc) X := by
  conv_lhs => rw [parseStrAux.eq_def]
  rfl

theorem parseStrAux_step_backslash (acc X : List Char) :
    parseStrAux acc ('\\' :: '\\' :: X) = parseStrAux ('\\' :: acc) X := by
  conv_lhs => rw [parseStrAux.eq_def]
  rfl

theorem parseStrAux_step_n (acc X : List Char) :
    parseStrAux acc ('\\' :: 'n' :: X) = parseStrAux ('\n' :: acc) X := by
  conv_lhs => rw [parseStrAux.eq_def]
  rfl

theorem parseStrAux_step_t (acc X : List Char) :
    parseStrAux acc ('\\' :: 't' :: X) = parseStrAux ('\t' :: acc) X := by
  conv_lhs => rw [parseStrAux.eq_def]
  rfl

theorem parseStrAux_step_r (acc X : List Char) :
    parseStrAux acc ('\\' :: 'r' :: X) = parseStrAux ('\r' :: acc) X := by
  conv_lhs => rw [parseStrAux.eq_def]
  rfl

theorem parseStrAux_step_b (acc X : List Char) :
    parseStrAux acc ('\\' :: 'b' :: X) = parseStrAux ('\x08' :: acc) X := by
  conv_lhs => rw [parseStrAux.eq_def]
  rfl

theorem parseStrAux_step_f (acc X : List Char) :
    parseStrAux acc ('\\' :: 'f' :: X) = parseStrAux ('\x0c' :: acc) X := by
  conv_lhs => rw [parseStrAux.eq_def]
  rfl

theorem parseStrAux_step_u (acc X : List Char) (h1 h2 h3 h4 : Char) :
    parseStrAux acc ('\\' :: 'u' :: h1 :: h2 :: h3 :: h4 :: X) =
      (match hexVal h1, hexVal h2, hexVal h3, hexVal h4 with
        | some a, some b, some c2, some d =>
          if _h : (((a * 16 + b) * 16 + c2) * 16 + d).isValidChar then
            parseStrAux (Char.ofNat (((a * 16 + b) * 16 + c2) * 16 + d) :: acc) X
          else none
        | _, _, _, _ => none) := by
  conv_lhs => rw [parseStrAux.eq_def]
  rfl

theorem parseStrAux_step_lit (acc X : List Char) {c : Char} (hq : c ≠ '"')
    (hb : c ≠ '\\') (hc : ¬c.toNat < 32) :
    parseStrAux acc (c :: X) = parseStrAux (c :: acc) X := by
  conv_lhs => rw [parseStrAux.eq_def]
  simp only [if_neg hq, if_neg hb, if_neg hc]

/-- The string-body decoder inverts `json.dumps` escaping, character by
character, from any accumulator. -/
theorem parseStrAux_escaped (l : List Char) : ∀ acc rest : List Char,
    parseStrAux acc (l.flatMap escChar ++ '"' :: rest) = some (⟨acc.reverse ++ l⟩, rest) := by
  induction l with
  | nil => intro acc rest; rw [List.flatMap_nil, List.nil_append, parseStrAux_step_close]; simp
  | cons c l ih =>
    intro acc rest
    simp only [List.flatMap_cons, List.append_assoc]
    by_cases h1 : c = '"'
    · subst h1
      rw [show escChar '"' = ['\\', '"'] from rfl]
      simp only [List.cons_append, List.nil_append]
      rw [parseStrAux_step_quote, ih]
      simp
    by_cases h2 : c = '\\'
    · subst h2
      rw [show escChar '\\' = ['\\', '\\'] from rfl]
      simp only [List.cons_append, List.nil_append]
      rw [parseStrAux_step_backslash, ih]
      simp
    by_cases h3 : c = '\n'
    · subst h3
      rw [show escChar '\n' = ['\\', 'n'] from rfl]
      simp only [List.cons_append, List.nil_append]
      rw [parseStrAux_step_n, ih]
      simp
    by_cases h4 : c = '\t'
    · subst h4
      rw [show escChar '\t' = ['\\', 't'] from rfl]
      simp only [List.cons_append, List.nil_append]
      rw [parseStrAux_step_t, ih]
      simp
    by_cases h5 : c = '\r'
    · subst h5
      rw [show escChar '\r' = ['\\', 'r'] from rfl]
      simp only [List.cons_append, List.nil_append]
      rw [parseStrAux_step_r, ih]
      simp
    by_cases h6 : c = '\x08'
    · subst h6
      rw [show escChar '\x08' = ['\\', 'b'] from rfl]
      simp only [List.cons_append, List.nil_append]
      rw [parseStrAux_step_b, ih]
      simp
    by_cases h7 : c = '\x0c'
    · subst h7
      rw [show escChar '\x0c' = ['\\', 'f'] from rfl]
      simp only [List.cons_append, List.nil_append]
      rw [parseStrAux_step_f, ih]
      simp
    by_cases h8 : c.toNat < 32
    · have hesc : escChar c = ['\\', 'u', '0', '0',
          escChar.digitHex (c.toNat / 16), escChar.digitHex (c.toNat % 16)] := by
        simp [escChar, h1, h2, h3, h4, h5, h6, h7, h8]
      rw [hesc]
      simp only [List.cons_append, List.nil_append]
      rw [parseStrAux_step_u]
      rw [show hexVal '0' = some 0 from rfl]
      rw [hexVal_digitHex _ (Nat.div_lt_of_lt_mul (by omega)),
        hexVal_digitHex _ (Nat.mod_lt _ (by omega))]
      simp only
      have hn : ((0 * 16 + 0) * 16 + c.toNat / 16) * 16 + c.toNat % 16 = c.toNat := by omega
      rw [hn]
      have hv : Nat.isValidChar c.toNat := Or.inl (by omega)
      rw [dif_pos hv, Char.ofNat_toNat, ih]
      simp
    · have hesc : escChar c = [c] := by
        simp [escChar, h1, h2, h3, h4, h5, h6, h7, h8]
      rw [hesc]
      simp only [List.cons_append, List.nil_append]
      rw [parseStrAux_step_lit acc _ h1 h2 h8, ih]
      simp

/-- The string-body decoder inverts the quote-only escaping of
`_parse_vars` on strings without backslashes or control characters. -/
theorem parseStrAux_quotes (l : List Char) (hgood : ∀ c ∈ l, c ≠ '\\' ∧ 32 ≤ c.toNat) :
    ∀ acc rest : List Char,
    parseStrAux acc (escapeQuotes l ++ '"' :: rest) = some (⟨acc.reverse ++ l⟩, rest) := by
  induction l with
  | nil =>
    intro acc rest
    rw [show escapeQuotes [] = [] from rfl, List.nil_append, parseStrAux_step_close]
    simp
  | cons c l ih =>
    intro acc rest
    have hc := hgood c (by simp)
    have ihl := ih fun c hc => hgood c (by simp [hc])
    by_cases h1 : c = '"'
    · subst h1
      rw [show escapeQuotes ('"' :: l) = ['\\', '"'] ++ escapeQuotes l from by
        simp [escapeQuotes]]
      simp only [List.cons_append, List.nil_append, List.append_assoc]
      rw [parseStrAux_step_quote, ihl]
      simp
    · rw [show escapeQuotes (c :: l) = c :: escapeQuotes l from by
        simp [escapeQuotes, h1]]
      simp only [List.cons_append]
      rw [parseStrAux_step_lit acc _ h1 hc.1 (by omega), ihl]
      simp

/-! ## Single-step dispatch lemmas for `parseValue`, `parseElems`,
`parseMembers` -/

theorem parseValue_zero (l : List Char) : parseValue 0 l = none := by
  rw [parseValue.eq_def]

theorem parseValue_step_str (f : Nat) (X : List Char) :
    parseValue (f + 1) ('"' :: X) = (parseStrAux [] X).map fun p => (.str p.1, p.2) := by
  rw [parseValue.eq_def, skipWs_not_ws '"' rfl]
  simp

theorem parseValue_step_null (f : Nat) (X : List Char) :
    parseValue (f + 1) ('n' :: 'u' :: 'l' :: 'l' :: X) = some (.null, X) := by
  rw [parseValue.eq_def, skipWs_not_ws 'n' rfl]
  simp

theorem parseValue_step_true (f : Nat) (X : List Char) :
    parseValue (f + 1) ('t' :: 'r' :: 'u' :: 'e' :: X) = some (.bool true, X) := by
  rw [parseValue.eq_def, skipWs_not_ws 't' rfl]
  simp

theorem parseValue_step_false (f : Nat) (X : List Char) :
    parseValue (f + 1) ('f' :: 'a' :: 'l' :: 's' :: 'e' :: X) = some (.bool false, X) := by
  rw [parseValue.eq_def, skipWs_not_ws 'f' rfl]
  simp

theorem parseValue_step_obj (f : Nat) (X : List Char) :
    parseValue (f + 1) ('{' :: X) =
      (match skipWs X with
        | [] => none
        | c2 :: cs2 =>
          if c2 = '}' then some (.obj [], cs2)
          else (parseMembers f (c2 :: cs2)).map fun p => (.obj p.1, p.2)) := by
  rw [parseValue.eq_def, skipWs_not_ws '{' rfl]
  simp

theorem parseValue_step_arr (f : Nat) (X : List Char) :
    parseValue (f + 1) ('[' :: X) =
      (match skipWs X with
        | [] => none
        | c2 :: cs2 =>
          if c2 = ']' then some (.arr [], cs2)
          else (parseElems f (c2 :: cs2)).map fun p => (.arr p.1, p.2)) := by
  rw [parseValue.eq_def, skipWs_not_ws '[' rfl]
  simp

theorem parseValue_step_dash (f : Nat) (c2 : Char) (cs2 : List Char) :
    parseValue (f + 1) ('-' :: c2 :: cs2) =
      (if c2.isDigit = true then
        some (.num (-((parseDigits cs2 (c2.toNat - '0'.toNat)).1 : Int)),
          (parseDigits cs2 (c2.toNat - '0'.toNat)).2)
      else none) := by
  rw [parseValue.eq_def, skipWs_not_ws '-' rfl]
  simp

/-- A digit character falls outside every dispatch character of the
decoder. -/
theorem digit_ne (c : Char) (h : c.isDigit = true) (d : Char)
    (hd : d.toNat < 48 ∨ 57 < d.toNat) : c ≠ d := by
  intro he
  subst he
  have hb := isDigit_toNat h
  omega

theorem isDigit_not_ws (c : Char) (h : c.isDigit = true) : isWsChar c = false := by
  have h1 : c ≠ ' ' := digit_ne c h ' ' (by decide)
  have h2 : c ≠ '\t' := digit_ne c h '\t' (by decide)
  have h3 : c ≠ '\n' := digit_ne c h '\n' (by decide)
  have h4 : c ≠ '\r' := digit_ne c h '\r' (by decide)
  simp [isWsChar, h1, h2, h3, h4]

theorem parseValue_step_digit (f : Nat) (c : Char) (cs : List Char) (h : c.isDigit = true) :
    parseValue (f + 1) (c :: cs) =
      some (.num ((parseDigits cs (c.toNat - '0'.toNat)).1 : Int),
        (parseDigits cs (c.toNat - '0'.toNat)).2) := by
  rw [parseValue.eq_def, skipWs_not_ws c (isDigit_not_ws c h)]
  have d1 : c ≠ '"' := digit_ne c h '"' (by decide)
  have d2 : c ≠ '{' := digit_ne c h '{' (by decide)
  have d3 : c ≠ '[' := digit_ne c h '[' (by decide)
  have d4 : c ≠ 't' := digit_ne c h 't' (by decide)
  have d5 : c ≠ 'f' := digit_ne c h 'f' (by decide)
  have d6 : c ≠ 'n' := digit_ne c h 'n' (by decide)
  have d7 : c ≠ '-' := digit_ne c h '-' (by decide)
  simp [d1, d2, d3, d4, d5, d6, d7, h]

/-- A leading whitespace character changes nothing for the value decoder. -/
theorem parseValue_ws (f : Nat) (c : Char) (h : isWsChar c = true) (l : List Char) :
    parseValue f (c :: l) = parseValue f l := by
  match f with
  | 0 => rw [parseValue_zero, parseValue_zero]
  | f + 1 =>
    rw [parseValue.eq_def, skipWs_ws_cons c h]
    conv_rhs => rw [parseValue.eq_def]

theorem parseMembers_zero (l : List Char) : parseMembers 0 l = none := by
  rw [parseMembers.eq_def]

theorem parseElems_zero (l : List Char) : parseElems 0 l = none := by
  rw [parseElems.eq_def]

theorem parseMembers_step (f : Nat) (X : List Char) :
    parseMembers (f + 1) ('"' :: X) =
      (match parseStrAux [] X with
        | none => none
        | some (k, cs1) =>
          match skipWs cs1 with
          | [] => none
          | c2 :: cs2 =>
            if c2 = ':' then
              match parseValue f cs2 with
              | none => none
              | some (v, cs3) =>
                match skipWs cs3 with
                | [] => none
                | c4 :: cs4 =>
                  if c4 = ',' then
                    (parseMembers f cs4).map fun p => ((k, v) :: p.1, p.2)
                  else if c4 = '}' then some ([(k, v)], cs4)
                  else none
            else none) := by
  conv_lhs => rw [parseMembers.eq_def]
  rw [skipWs_not_ws '"' rfl]
  simp

/-- A leading whitespace character changes nothing for the member
decoder. -/
theorem parseMembers_ws (f : Nat) (c : Char) (h : isWsChar c = true) (l : List Char) :
    parseMembers f (c :: l) = parseMembers f l := by
  match f with
  | 0 => rw [parseMembers_zero, parseMembers_zero]
  | f + 1 =>
    conv_lhs => rw [parseMembers.eq_def]
    rw [skipWs_ws_cons c h]
    conv_rhs => rw [parseMembers.eq_def]

theorem parseElems_step (f : Nat) (l : List Char) :
    parseElems (f + 1) l =
      (match parseValue f l with
        | none => none
        | some (v, cs) =>
          match skipWs cs with
          | [] => none
          | c :: cs1 =>
            if c = ',' then (parseElems f cs1).map fun p => (v :: p.1, p.2)
            else if c = ']' then some ([v], cs1)
            else none) := by
  conv_lhs => rw [parseElems.eq_def]

/-- The decoder reads back Python's decimal rendering of any integer,
stopping at a non-digit rest. -/
theorem parseValue_num (f : Nat) (i : Int) (rest : List Char)
    (hr : ∀ c, rest.head? = some c → c.isDigit = false) :
    parseValue (f + 1) (intToCharList i ++ rest) = some (.num i, rest) := by
  rcases i with n | n
  · have hpos : ¬((Int.ofNat n) < 0) := by
      show ¬((n : Int) < 0)
      omega
    rw [show intToCharList (Int.ofNat n) = natToCharList n from by
      simp [intToCharList, hpos]]
    obtain ⟨c, cs, hc, hd⟩ := natToCharList_head n
    have hdig := parseDigits_natToCharList n rest hr
    rw [hc, List.cons_append] at hdig ⊢
    rw [parseValue_step_digit f c _ hd]
    rw [show parseDigits (c :: (cs ++ rest)) 0 =
        parseDigits (cs ++ rest) (c.toNat - '0'.toNat) from by
      simp [parseDigits, hd]] at hdig
    rw [hdig]
    simp
  · rw [show intToCharList (Int.negSucc n) = '-' :: natToCharList (n + 1) from by
      simp [intToCharList, Int.negSucc_lt_zero]]
    obtain ⟨c, cs, hc, hd⟩ := natToCharList_head (n + 1)
    have hdig := parseDigits_natToCharList (n + 1) rest hr
    rw [hc, List.cons_append] at hdig
    rw [hc, List.cons_append, List.cons_append, parseValue_step_dash f c (cs ++ rest),
      if_pos hd]
    rw [show parseDigits (c :: (cs ++ rest)) 0 =
        parseDigits (cs ++ rest) (c.toNat - '0'.toNat) from by
      simp [parseDigits, hd]] at hdig
    rw [hdig]
    have hval : -(((n + 1 : Nat) : Int)) = Int.negSucc n := by
      rw [Int.negSucc_eq]
      push_cast
      ring
    show some (JVal.num (-(((n + 1 : Nat)) : Int)), rest) = some (JVal.num (Int.negSucc n), rest)
    rw [hval]

/-- Every dumped value starts with a character that is not whitespace and
not a closing delimiter, so the element and member loops always hand the
value decoder an intact head. -/
theorem dumpChars_head (v : JVal) :
    ∃ c t, dumpChars v = c :: t ∧ isWsChar c = false ∧ c ≠ ']' ∧ c ≠ '}' := by
  match v with
  | .null => exact ⟨'n', _, by rw [dumpChars.eq_def], by decide, by decide, by decide⟩
  | .bool true => exact ⟨'t', _, by rw [dumpChars.eq_def], by decide, by decide, by decide⟩
  | .bool false => exact ⟨'f', _, by rw [dumpChars.eq_def], by decide, by decide, by decide⟩
  | .str s => exact ⟨'"', _, by rw [dumpChars.eq_def]; rfl, by decide, by decide, by decide⟩
  | .arr xs =>
    exact ⟨'[', dumpList xs ++ [']'], by rw [dumpChars.eq_def]; simp, by decide, by decide,
      by decide⟩
  | .obj kvs =>
    exact ⟨'{', dumpObj kvs ++ ['}'], by rw [dumpChars.eq_def]; simp, by decide, by decide,
      by decide⟩
  | .num i =>
    rcases Int.lt_or_le i 0 with hneg | hpos
    · refine ⟨'-', natToCharList i.natAbs, ?_, by decide, by decide, by decide⟩
      rw [dumpChars.eq_def]
      simp [intToCharList, hneg]
    · obtain ⟨c, cs, hc, hd⟩ := natToCharList_head i.natAbs
      refine ⟨c, cs, ?_, isDigit_not_ws c hd, digit_ne c hd ']' (by decide),
        digit_ne c hd '}' (by decide)⟩
      rw [dumpChars.eq_def]
      simp only [intToCharList, if_neg (by omega : ¬i < 0)]
      exact hc

/-! ## Unfolding equations for the dump functions and sizes -/

theorem dumpChars_null : dumpChars .null = ['n', 'u', 'l', 'l'] := by
  rw [dumpChars.eq_def]

theorem dumpChars_true : dumpChars (.bool true) = ['t', 'r', 'u', 'e'] := by
  rw [dumpChars.eq_def]

theorem dumpChars_false : dumpChars (.bool false) = ['f', 'a', 'l', 's', 'e'] := by
  rw [dumpChars.eq_def]

theorem dumpChars_num (i : Int) : dumpChars (.num i) = intToCharList i := by
  rw [dumpChars.eq_def]

theorem dumpChars_str (s : String) : dumpChars (.str s) = dumpStr s := by
  rw [dumpChars.eq_def]

theorem dumpChars_arr (xs : List JVal) : dumpChars (.arr xs) = '[' :: dumpList xs ++ [']'] := by
  rw [dumpChars.eq_def]

theorem dumpChars_obj (kvs : List (String × JVal)) :
    dumpChars (.obj kvs) = '{' :: dumpObj kvs ++ ['}'] := by
  rw [dumpChars.eq_def]

theorem dumpList_one (x : JVal) : dumpList [x] = dumpChars x := by
  rw [dumpList.eq_def]

theorem dumpList_cons2 (x y : JVal) (ys : List JVal) :
    dumpList (x :: y :: ys) = dumpChars x ++ ',' :: ' ' :: dumpList (y :: ys) := by
  rw [dumpList.eq_def]

theorem dumpObj_one (k : String) (w : JVal) :
    dumpObj [(k, w)] = dumpStr k ++ ':' :: ' ' :: dumpChars w := by
  rw [dumpObj.eq_def]

theorem dumpObj_cons2 (k : String) (w : JVal) (m : String × JVal)
    (kvs : List (String × JVal)) :
    dumpObj ((k, w) :: m :: kvs) =
      dumpStr k ++ ':' :: ' ' :: dumpChars w ++ ',' :: ' ' :: dumpObj (m :: kvs) := by
  rw [dumpObj.eq_def]

theorem JSize_arr (xs : List JVal) : JSize (.arr xs) = 1 + ESize xs := by
  rw [JSize.eq_def]

theorem JSize_obj (kvs : List (String × JVal)) : JSize (.obj kvs) = 1 + MSize kvs := by
  rw [JSize.eq_def]

theorem ESize_cons (x : JVal) (xs : List JVal) :
    ESize (x :: xs) = 1 + max (JSize x) (ESize xs) := by
  rw [ESize.eq_def]

theorem MSize_cons (k : String) (w : JVal) (kvs : List (String × JVal)) :
    MSize ((k, w) :: kvs) = 1 + max (JSize w) (MSize kvs) := by
  rw [MSize.eq_def]

theorem JSize_pos (v : JVal) : 1 ≤ JSize v := by
  match v with
  | .null => simp [JSize.eq_def]
  | .bool b => simp [JSize.eq_def]
  | .num i => simp [JSize.eq_def]
  | .str s => simp [JSize.eq_def]
  | .arr xs => rw [JSize_arr]; omega
  | .obj kvs => rw [JSize_obj]; omega

theorem ESize_pos (x : JVal) (xs : List JVal) : 1 ≤ ESize (x :: xs) := by
  rw [ESize_cons]
  omega

theorem MSize_pos (p : String × JVal) (kvs : List (String × JVal)) :
    1 ≤ MSize (p :: kvs) := by
  obtain ⟨k, w⟩ := p
  rw [MSize_cons]
  omega

/-- The value the number guard of `parse_dump` protects: a dumped number
followed by a digit would be over-consumed; every other value bounds its
own extent. -/
def numSafe (v : JVal) (rest : List Char) : Prop :=
  match v, rest with
  | .num _, c :: _ => c.isDigit = false
  | _, _ => True

theorem numSafe_of_head (v : JVal) (c : Char) (r : List Char) (h : c.isDigit = false) :
    numSafe v (c :: r) := by
  cases v <;> simp [numSafe, h]

/-- A leading whitespace character changes nothing for the element
decoder. -/
theorem parseElems_ws (f : Nat) (c : Char) (h : isWsChar c = true) (l : List Char) :
    parseElems f (c :: l) = parseElems f l := by
  match f with
  | 0 => rw [parseElems_zero, parseElems_zero]
  | f + 1 => rw [parseElems_step, parseElems_step, parseValue_ws f c h]

theorem ESize_nil : ESize [] = 0 := by rw [ESize.eq_def]

theorem MSize_nil : MSize [] = 0 := by rw [MSize.eq_def]

theorem stringMk_data (s : String) : (⟨s.data⟩ : String) = s := rfl

/-- A nonempty dumped array never starts with whitespace or `]`. -/
theorem dumpList_head (x : JVal) (xs : List JVal) :
    ∃ c t, dumpList (x :: xs) = c :: t ∧ isWsChar c = false ∧ c ≠ ']' := by
  obtain ⟨c, t, hcx, hws, hbr, _⟩ := dumpChars_head x
  match xs with
  | [] => exact ⟨c, t, by rw [dumpList_one, hcx], hws, hbr⟩
  | y :: ys =>
    exact ⟨c, t ++ ',' :: ' ' :: dumpList (y :: ys),
      by rw [dumpList_cons2, hcx]; simp, hws, hbr⟩

/-- A nonempty dumped object starts with the quote of its first key. -/
theorem dumpObj_head (k : String) (w : JVal) (kvs : List (String × JVal)) :
    ∃ t, dumpObj ((k, w) :: kvs) = '"' :: t := by
  match kvs with
  | [] =>
    refine ⟨k.data.flatMap escChar ++ '"' :: ':' :: ' ' :: dumpChars w, ?_⟩
    rw [dumpObj_one]
    simp [dumpStr]
  | m :: ms =>
    refine ⟨k.data.flatMap escChar ++
      '"' :: ':' :: ' ' :: (dumpChars w ++ ',' :: ' ' :: dumpObj (m :: ms)), ?_⟩
    rw [dumpObj_cons2]
    simp [dumpStr]

/-- Value step for an empty dumped array. -/
theorem parseValue_arr_nil (f : Nat) (rest : List Char) :
    parseValue (f + 1) (dumpChars (.arr []) ++ rest) = some (.arr [], rest) := by
  rw [dumpChars_arr]
  rw [show ('[' :: dumpList [] ++ [']']) ++ rest = '[' :: (']' :: rest) from by
    rw [dumpList.eq_def]
    simp]
  rw [parseValue_step_arr, skipWs_not_ws ']' rfl]
  simp

/-- Value step for an empty dumped object. -/
theorem parseValue_obj_nil (f : Nat) (rest : List Char) :
    parseValue (f + 1) (dumpChars (.obj []) ++ rest) = some (.obj [], rest) := by
  rw [dumpChars_obj]
  rw [show ('{' :: dumpObj [] ++ ['}']) ++ rest = '{' :: ('}' :: rest) from by
    rw [dumpObj.eq_def]
    simp]
  rw [parseValue_step_obj, skipWs_not_ws '}' rfl]
  simp

/-- Value step for a nonempty dumped array, given the element loop. -/
theorem parseValue_arr_cons (f : Nat) (x : JVal) (xs : List JVal) (rest : List Char)
    (helems : parseElems f (dumpList (x :: xs) ++ ']' :: rest) = some (x :: xs, rest)) :
    parseValue (f + 1) (dumpChars (.arr (x :: xs)) ++ rest) = some (.arr (x :: xs), rest) := by
  rw [dumpChars_arr]
  rw [show ('[' :: dumpList (x :: xs) ++ [']']) ++ rest =
      '[' :: (dumpList (x :: xs) ++ ']' :: rest) from by simp]
  rw [parseValue_step_arr]
  obtain ⟨c, t, hdl, hws, hbr⟩ := dumpList_head x xs
  rw [hdl]
  simp only [List.cons_append]
  rw [skipWs_not_ws c hws]
  simp only [if_neg hbr]
  rw [← List.cons_append, ← hdl, helems]
  simp

/-- Value step for a nonempty dumped object, given the member loop. -/
theorem parseValue_obj_cons (f : Nat) (k : String) (w : JVal)
    (kvs : List (String × JVal)) (rest : List Char)
    (hmem : parseMembers f (dumpObj ((k, w) :: kvs) ++ '}' :: rest) =
      some ((k, w) :: kvs, rest)) :
    parseValue (f + 1) (dumpChars (.obj ((k, w) :: kvs)) ++ rest) =
      some (.obj ((k, w) :: kvs), rest) := by
  rw [dumpChars_obj]
  rw [show ('{' :: dumpObj ((k, w) :: kvs) ++ ['}']) ++ rest =
      '{' :: (dumpObj ((k, w) :: kvs) ++ '}' :: rest) from by simp]
  rw [parseValue_step_obj]
  obtain ⟨t, hdo⟩ := dumpObj_head k w kvs
  rw [hdo]
  simp only [List.cons_append]
  rw [skipWs_not_ws '"' rfl]
  simp only [if_neg (show ('"' : Char) ≠ '}' from by decide)]
  rw [← List.cons_append, ← hdo, hmem]
  simp

/-- Element loop: the last element, closed by `]`. -/
theorem parseElems_one (g : Nat) (x : JVal) (rest : List Char)
    (hval : parseValue g (dumpChars x ++ ']' :: rest) = some (x, ']' :: rest)) :
    parseElems (g + 1) (dumpList [x] ++ ']' :: rest) = some ([x], rest) := by
  rw [dumpList_one, parseElems_step, hval]
  simp only []
  rw [skipWs_not_ws ']' rfl]
  simp

/-- Element loop: an element followed by `", "` and further elements. -/
theorem parseElems_cons (g : Nat) (x y : JVal) (ys : List JVal) (rest : List Char)
    (hval : parseValue g (dumpChars x ++ ',' :: ' ' :: (dumpList (y :: ys) ++ ']' :: rest)) =
      some (x, ',' :: ' ' :: (dumpList (y :: ys) ++ ']' :: rest)))
    (hrec : parseElems g (dumpList (y :: ys) ++ ']' :: rest) = some (y :: ys, rest)) :
    parseElems (g + 1) (dumpList (x :: y :: ys) ++ ']' :: rest) =
      some (x :: y :: ys, rest) := by
  rw [dumpList_cons2]
  rw [show (dumpChars x ++ ',' :: ' ' :: dumpList (y :: ys)) ++ ']' :: rest =
      dumpChars x ++ ',' :: ' ' :: (dumpList (y :: ys) ++ ']' :: rest) from by simp]
  rw [parseElems_step, hval]
  simp only []
  rw [skipWs_not_ws ',' rfl]
  simp only [if_pos rfl]
  rw [parseElems_ws g ' ' rfl, hrec]
  simp

/-- Member loop: the last member, closed by `}`. -/
theorem parseMembers_one (g : Nat) (k : String) (w : JVal) (rest : List Char)
    (hval : parseValue g (dumpChars w ++ '}' :: rest) = some (w, '}' :: rest)) :
    parseMembers (g + 1) (dumpObj [(k, w)] ++ '}' :: rest) = some ([(k, w)], rest) := by
  rw [dumpObj_one]
  rw [show (dumpStr k ++ ':' :: ' ' :: dumpChars w) ++ '}' :: rest =
      '"' :: (k.data.flatMap escChar ++
        '"' :: (':' :: ' ' :: (dumpChars w ++ '}' :: rest))) from by simp [dumpStr]]
  rw [parseMembers_step, parseStrAux_escaped k.data [] _]
  simp only []
  rw [skipWs_not_ws ':' rfl]
  simp only [if_pos rfl]
  rw [parseValue_ws g ' ' rfl, hval]
  simp only []
  rw [skipWs_not_ws '}' rfl]
  simp [stringMk_data]

/-- Member loop: a member followed by `", "` and further members. -/
theorem parseMembers_cons (g : Nat) (k : String) (w : JVal) (m : String × JVal)
    (kvs : List (String × JVal)) (rest : List Char)
    (hval : parseValue g (dumpChars w ++
        ',' :: ' ' :: (dumpObj (m :: kvs) ++ '}' :: rest)) =
      some (w, ',' :: ' ' :: (dumpObj (m :: kvs) ++ '}' :: rest)))
    (hrec : parseMembers g (dumpObj (m :: kvs) ++ '}' :: rest) = some (m :: kvs, rest)) :
    parseMembers (g + 1) (dumpObj ((k, w) :: m :: kvs) ++ '}' :: rest) =
      some ((k, w) :: m :: kvs, rest) := by
  rw [dumpObj_cons2]
  rw [show (dumpStr k ++ ':' :: ' ' :: dumpChars w ++
        ',' :: ' ' :: dumpObj (m :: kvs)) ++ '}' :: rest =
      '"' :: (k.data.flatMap escChar ++ '"' :: (':' :: ' ' ::
        (dumpChars w ++ ',' :: ' ' :: (dumpObj (m :: kvs) ++ '}' :: rest)))) from by
    simp [dumpStr]]
  rw [parseMembers_step, parseStrAux_escaped k.data [] _]
  simp only []
  rw [skipWs_not_ws ':' rfl]
  simp only [if_pos rfl]
  rw [parseValue_ws g ' ' rfl, hval]
  simp only []
  rw [skipWs_not_ws ',' rfl]
  simp only [if_pos rfl]
  rw [parseMembers_ws g ' ' rfl, hrec]
  simp [stringMk_data]

/-- The decoder inverts the serializer: decoding a dumped value (or a
nonempty dumped element/member list up to its closing bracket) succeeds at
any fuel at least the structural size and leaves the rest untouched.  The
bound `B` drives the strong induction. -/
theorem parse_dump_aux (B : Nat) :
    (∀ v : JVal, JSize v ≤ B → ∀ (f : Nat) (rest : List Char), JSize v ≤ f + 1 →
      numSafe v rest → parseValue (f + 1) (dumpChars v ++ rest) = some (v, rest)) ∧
    (∀ (x : JVal) (xs : List JVal), ESize (x :: xs) ≤ B →
      ∀ (f : Nat) (rest : List Char), ESize (x :: xs) ≤ f + 1 →
      parseElems (f + 1) (dumpList (x :: xs) ++ ']' :: rest) = some (x :: xs, rest)) ∧
    (∀ (p : String × JVal) (kvs : List (String × JVal)), MSize (p :: kvs) ≤ B →
      ∀ (f : Nat) (rest : List Char), MSize (p :: kvs) ≤ f + 1 →
      parseMembers (f + 1) (dumpObj (p :: kvs) ++ '}' :: rest) = some (p :: kvs, rest)) := by
  induction B using Nat.strong_induction_on with
  | _ B IH =>
  refine ⟨?_, ?_, ?_⟩
  · intro v hB f rest hfuel hsafe
    cases v with
    | null =>
      rw [dumpChars_null]
      simp only [List.cons_append, List.nil_append]
      exact parseValue_step_null f rest
    | bool b =>
      cases b
      · rw [dumpChars_false]
        simp only [List.cons_append, List.nil_append]
        exact parseValue_step_false f rest
      · rw [dumpChars_true]
        simp only [List.cons_append, List.nil_append]
        exact parseValue_step_true f rest
    | num i =>
      rw [dumpChars_num]
      refine parseValue_num f i rest ?_
      intro c hc
      cases rest with
      | nil => simp at hc
      | cons c' r =>
        have he : c' = c := by simpa using hc
        subst he
        exact hsafe
    | str s =>
      rw [dumpChars_str]
      rw [show dumpStr s ++ rest = '"' :: (s.data.flatMap escChar ++ '"' :: rest) from by
        simp [dumpStr]]
      rw [parseValue_step_str, parseStrAux_escaped s.data [] rest]
      simp [stringMk_data]
    | arr xs =>
      cases xs with
      | nil => exact parseValue_arr_nil f rest
      | cons x xs =>
        have hB' : ESize (x :: xs) ≤ B - 1 := by rw [JSize_arr] at hB; omega
        have hf' : ESize (x :: xs) ≤ f := by rw [JSize_arr] at hfuel; omega
        have hf1 : 1 ≤ f := le_trans (ESize_pos x xs) hf'
        have hBpos : 1 ≤ B := le_trans (JSize_pos _) hB
        obtain ⟨g, rfl⟩ : ∃ g, f = g + 1 := ⟨f - 1, by omega⟩
        exact parseValue_arr_cons (g + 1) x xs rest
          ((IH (B - 1) (by omega)).2.1 x xs hB' g rest hf')
    | obj kvs =>
      rcases kvs with _ | ⟨⟨k, w⟩, kvs⟩
      · exact parseValue_obj_nil f rest
      · have hB' : MSize ((k, w) :: kvs) ≤ B - 1 := by rw [JSize_obj] at hB; omega
        have hf' : MSize ((k, w) :: kvs) ≤ f := by rw [JSize_obj] at hfuel; omega
        have hf1 : 1 ≤ f := le_trans (MSize_pos (k, w) kvs) hf'
        have hBpos : 1 ≤ B := le_trans (JSize_pos _) hB
        obtain ⟨g, rfl⟩ : ∃ g, f = g + 1 := ⟨f - 1, by omega⟩
        exact parseValue_obj_cons (g + 1) k w kvs rest
          ((IH (B - 1) (by omega)).2.2 (k, w) kvs hB' g rest hf')
  · intro x xs hB f rest hfuel
    cases xs with
    | nil =>
      have hJ : JSize x ≤ f := by rw [ESize_cons, ESize_nil] at hfuel; omega
      have hf1 : 1 ≤ f := le_trans (JSize_pos x) hJ
      have hBpos : 1 ≤ B := le_trans (ESize_pos x []) hB
      have hJB : JSize x ≤ B - 1 := by rw [ESize_cons, ESize_nil] at hB; omega
      obtain ⟨g, rfl⟩ : ∃ g, f = g + 1 := ⟨f - 1, by omega⟩
      exact parseElems_one (g + 1) x rest
        ((IH (B - 1) (by omega)).1 x hJB g (']' :: rest) hJ
          (numSafe_of_head x ']' rest (by decide)))
    | cons y ys =>
      have hJ : JSize x ≤ f := by rw [ESize_cons] at hfuel; omega
      have hE : ESize (y :: ys) ≤ f := by rw [ESize_cons] at hfuel; omega
      have hf1 : 1 ≤ f := le_trans (JSize_pos x) hJ
      have hBpos : 1 ≤ B := le_trans (ESize_pos x (y :: ys)) hB
      have hJB : JSize x ≤ B - 1 := by rw [ESize_cons] at hB; omega
      have hEB : ESize (y :: ys) ≤ B - 1 := by rw [ESize_cons] at hB; omega
      obtain ⟨g, rfl⟩ : ∃ g, f = g + 1 := ⟨f - 1, by omega⟩
      refine parseElems_cons (g + 1) x y ys rest ?_ ?_
      · exact (IH (B - 1) (by omega)).1 x hJB g _ hJ
          (numSafe_of_head x ',' _ (by decide))
      · exact (IH (B - 1) (by omega)).2.1 y ys hEB g rest hE
  · intro p kvs hB f rest hfuel
    obtain ⟨k, w⟩ := p
    cases kvs with
    | nil =>
      have hJ : JSize w ≤ f := by rw [MSize_cons, MSize_nil] at hfuel; omega
      have hf1 : 1 ≤ f := le_trans (JSize_pos w) hJ
      have hBpos : 1 ≤ B := le_trans (MSize_pos (k, w) []) hB
      have hJB : JSize w ≤ B - 1 := by rw [MSize_cons, MSize_nil] at hB; omega
      obtain ⟨g, rfl⟩ : ∃ g, f = g + 1 := ⟨f - 1, by omega⟩
      exact parseMembers_one (g + 1) k w rest
        ((IH (B - 1) (by omega)).1 w hJB g ('}' :: rest) hJ
          (numSafe_of_head w '}' rest (by decide)))
    | cons m kvs =>
      have hJ : JSize w ≤ f := by rw [MSize_cons] at hfuel; omega
      have hM : MSize (m :: kvs) ≤ f := by rw [MSize_cons] at hfuel; omega
      have hf1 : 1 ≤ f := le_trans (JSize_pos w) hJ
      have hBpos : 1 ≤ B := le_trans (MSize_pos (k, w) (m :: kvs)) hB
      have hJB : JSize w ≤ B - 1 := by rw [MSize_cons] at hB; omega
      have hMB : MSize (m :: kvs) ≤ B - 1 := by rw [MSize_cons] at hB; omega
      obtain ⟨g, rfl⟩ : ∃ g, f = g + 1 := ⟨f - 1, by omega⟩
      refine parseMembers_cons (g + 1) k w m kvs rest ?_ ?_
      · exact (IH (B - 1) (by omega)).1 w hJB g _ hJ
          (numSafe_of_head w ',' _ (by decide))
      · exact (IH (B - 1) (by omega)).2.2 m kvs hMB g rest hM

/-- The structural size of a value never exceeds the length of its dump
(and the loop sizes exceed the dumped list lengths by at most one), so the
fuel `jsonLoads` allots — length plus one — always suffices. -/
theorem dump_size (B : Nat) :
    (∀ v : JVal, (dumpChars v).length ≤ B → JSize v ≤ (dumpChars v).length) ∧
    (∀ (x : JVal) (xs : List JVal), (dumpList (x :: xs)).length ≤ B →
      ESize (x :: xs) ≤ (dumpList (x :: xs)).length + 1) ∧
    (∀ (p : String × JVal) (kvs : List (String × JVal)),
      (dumpObj (p :: kvs)).length ≤ B →
      MSize (p :: kvs) ≤ (dumpObj (p :: kvs)).length + 1) := by
  induction B using Nat.strong_induction_on with
  | _ B IH =>
  have hone : ∀ w : JVal, 1 ≤ (dumpChars w).length := by
    intro w
    obtain ⟨c, t, hc, -, -, -⟩ := dumpChars_head w
    rw [hc]
    simp
  have hval : ∀ v : JVal, (dumpChars v).length ≤ B → JSize v ≤ (dumpChars v).length := by
    intro v hB
    cases v with
    | null =>
      rw [show JSize JVal.null = 1 from by rw [JSize.eq_def]]
      exact hone JVal.null
    | bool b =>
      rw [show JSize (JVal.bool b) = 1 from by rw [JSize.eq_def]]
      exact hone (JVal.bool b)
    | num i =>
      rw [show JSize (JVal.num i) = 1 from by rw [JSize.eq_def]]
      exact hone (JVal.num i)
    | str s =>
      rw [show JSize (JVal.str s) = 1 from by rw [JSize.eq_def]]
      exact hone (JVal.str s)
    | arr xs =>
      cases xs with
      | nil =>
        rw [JSize_arr, ESize_nil, dumpChars_arr,
          show dumpList [] = [] from by rw [dumpList.eq_def]]
        decide
      | cons x xs =>
        rw [JSize_arr, dumpChars_arr]
        rw [dumpChars_arr] at hB
        have hlen : ('[' :: dumpList (x :: xs) ++ [']']).length =
            (dumpList (x :: xs)).length + 2 := by
          simp only [List.cons_append, List.length_cons, List.length_append,
            List.length_singleton, List.length_nil]
        rw [hlen] at hB ⊢
        have hE := (IH (B - 1) (by omega)).2.1 x xs (by omega)
        omega
    | obj kvs =>
      rcases kvs with _ | ⟨p, kvs⟩
      · rw [JSize_obj, MSize_nil, dumpChars_obj,
          show dumpObj [] = [] from by rw [dumpObj.eq_def]]
        decide
      · rw [JSize_obj, dumpChars_obj]
        rw [dumpChars_obj] at hB
        have hlen : ('{' :: dumpObj (p :: kvs) ++ ['}']).length =
            (dumpObj (p :: kvs)).length + 2 := by
          simp only [List.cons_append, List.length_cons, List.length_append,
            List.length_singleton, List.length_nil]
        rw [hlen] at hB ⊢
        have hM := (IH (B - 1) (by omega)).2.2 p kvs (by omega)
        omega
  refine ⟨hval, ?_, ?_⟩
  · intro x xs hB
    cases xs with
    | nil =>
      rw [dumpList_one] at hB ⊢
      rw [ESize_cons, ESize_nil]
      have h1 := hval x hB
      omega
    | cons y ys =>
      rw [ESize_cons]
      have hlen : (dumpList (x :: y :: ys)).length =
          (dumpChars x).length + 2 + (dumpList (y :: ys)).length := by
        rw [dumpList_cons2]
        simp only [List.length_append, List.length_cons]
        omega
      rw [hlen] at hB ⊢
      have hx1 := hone x
      have h1 := hval x (by omega)
      have h2 := (IH (B - 1) (by omega)).2.1 y ys (by omega)
      omega
  · intro p kvs hB
    obtain ⟨k, w⟩ := p
    cases kvs with
    | nil =>
      rw [MSize_cons, MSize_nil]
      have hlen : (dumpObj [(k, w)]).length =
          (dumpStr k).length + 2 + (dumpChars w).length := by
        rw [dumpObj_one]
        simp only [List.length_append, List.length_cons]
        omega
      rw [hlen] at hB ⊢
      have h1 := hval w (by omega)
      omega
    | cons m kvs =>
      rw [MSize_cons]
      have hlen : (dumpObj ((k, w) :: m :: kvs)).length =
          (dumpStr k).length + 2 + (dumpChars w).length + 2 +
            (dumpObj (m :: kvs)).length := by
        rw [dumpObj_cons2]
        simp only [List.length_append, List.length_cons]
        omega
      rw [hlen] at hB ⊢
      have h1 := hval w (by omega)
      have h2 := (IH (B - 1) (by omega)).2.2 m kvs (by omega)
      omega

/-- `json.loads` inverts `json.dumps` on every value: the round trip behind
the dict and list branches of `_parse_vars`. -/
theorem jsonLoads_dumps (v : JVal) : jsonLoads (jsonDumps v) = some v := by
  have hsz := (dump_size (dumpChars v).length).1 v le_rfl
  have hp := (parse_dump_aux (JSize v)).1 v le_rfl (dumpChars v).length [] (by omega)
    (by cases v <;> trivial)
  rw [List.append_nil] at hp
  unfold jsonLoads
  rw [show (jsonDumps v).data = dumpChars v from rfl, hp]
  simp [skipWs]

/-- On a string with no backslash and no control character, the quote-only
escaping of `_parse_vars` coincides with the full `json.dumps` escaping. -/
theorem escapeQuotes_eq_escChar (l : List Char)
    (h : ∀ c ∈ l, c ≠ '\x5c' ∧ 32 ≤ c.toNat) :
    escapeQuotes l = l.flatMap escChar := by
  induction l with
  | nil => rfl
  | cons c cs ih =>
    obtain ⟨hb, hn⟩ := h c (by simp)
    have ih' := ih fun d hd => h d (by simp [hd])
    simp only [escapeQuotes, List.flatMap_cons] at ih' ⊢
    rw [ih']
    by_cases hq : c = '"'
    · subst hq
      rfl
    · have h1 : c ≠ '\n' := fun he => absurd (he ▸ hn) (by decide)
      have h2 : c ≠ '\t' := fun he => absurd (he ▸ hn) (by decide)
      have h3 : c ≠ '\x0d' := fun he => absurd (he ▸ hn) (by decide)
      have h4 : c ≠ '\x08' := fun he => absurd (he ▸ hn) (by decide)
      have h5 : c ≠ '\x0c' := fun he => absurd (he ▸ hn) (by decide)
      have h6 : ¬c.toNat < 32 := by omega
      simp only [escChar, if_neg hq, if_neg hb, if_neg h1, if_neg h2, if_neg h3,
        if_neg h4, if_neg h5, if_neg h6]

/-- On such a string the `_parse_vars` string encoding is exactly
`json.dumps` of that string. -/
theorem encodeVar_str_plain (s : String)
    (h : ∀ c ∈ s.data, c ≠ '\x5c' ∧ 32 ≤ c.toNat) :
    encodeVar (.str s) = jsonDumps (.str s) := by
  show (⟨'"' :: escapeQuotes s.data ++ ['"']⟩ : String) = ⟨dumpChars (.str s)⟩
  rw [escapeQuotes_eq_escChar s.data h, dumpChars_str]
  rfl

/-! ## Resolving `_build_arg` at the option table, for the vector
characterizations -/

/-- A string of length zero is the empty string. -/
theorem string_length_zero_iff (s : String) : s.length = 0 ↔ s = "" := by
  constructor
  · intro h
    have hd : s.data = [] := List.length_eq_zero.mp h
    rw [← stringMk_data s, hd]
  · intro h
    rw [h]
    rfl

/-- `str(value)` of an int is never empty (a sign or a digit leads). -/
theorem pyStr_int_len_pos (i : Int) : 0 < (pyStr (.int i)).length := by
  show 0 < (intToCharList i).length
  rcases Int.lt_or_le i 0 with hneg | hpos
  · rw [show intToCharList i = '-' :: natToCharList i.natAbs from by
      simp [intToCharList, hneg]]
    simp
  · obtain ⟨c, cs, hc, -⟩ := natToCharList_head i.natAbs
    rw [show intToCharList i = natToCharList i.natAbs from by
      simp [intToCharList, Int.not_lt.mpr hpos]]
    rw [hc]
    simp

/-- `_build_arg` of a bool at a bare-flag template: the flag when `True`,
the empty token when `False`. -/
theorem buildArgD_bare (name res : String) (h : lookupArg name = some res)
    (hq : ¬(res.back = '=')) (b : Bool) :
    buildArgD name (.bool b) = if b then res else "" := by
  unfold buildArgD buildArg
  simp only [h]
  rw [if_neg fun hc => hq hc.1]
  rfl

/-- `_build_arg` of an int at a value-taking template: the template with
the rendered number, never empty. -/
theorem buildArgD_int (name res : String) (h : lookupArg name = some res)
    (hq : res.back = '=') (i : Int) :
    buildArgD name (.int i) = res ++ pyStr (.int i) := by
  unfold buildArgD buildArg
  simp only [h]
  rw [if_pos ⟨hq, fun hh => PyVal.noConfusion hh⟩]
  rw [if_pos (pyStr_int_len_pos i)]
  rfl

/-- `_build_arg` of a nonempty string at a value-taking template. -/
theorem buildArgD_str_ne (name res : String) (h : lookupArg name = some res)
    (hq : res.back = '=') (s : String) (hs : ¬(s.length = 0)) :
    buildArgD name (.str s) = res ++ s := by
  unfold buildArgD buildArg
  simp only [h]
  rw [if_pos ⟨hq, fun hh => PyVal.noConfusion hh⟩]
  rw [if_neg hs]
  rfl

/-- `_build_arg` of an optional string at a value-taking template: the
empty token on `None` and on the empty string, the filled template
otherwise. -/
theorem buildArgD_optStr (name res : String) (h : lookupArg name = some res)
    (hq : res.back = '=') (o : Option String) :
    buildArgD name (optStrPy o) =
      if pyFalsyStr o then "" else res ++ o.getD "" := by
  rcases o with _ | s
  · unfold buildArgD buildArg
    simp only [h, optStrPy]
    rw [if_neg fun hc => hc.2 rfl]
    rfl
  · by_cases hs : s.isEmpty = true
    · have hemp : s = "" := (String.isEmpty_iff s).mp hs
      subst hemp
      unfold buildArgD buildArg
      simp only [h, optStrPy, pyFalsyStr]
      rw [if_pos ⟨hq, fun hh => PyVal.noConfusion hh⟩]
      rfl
    · have hlen : ¬(s.length = 0) := fun h0 =>
        hs ((String.isEmpty_iff s).mpr ((string_length_zero_iff s).mp h0))
      rw [show optStrPy (some s) = .str s from rfl,
        buildArgD_str_ne name res h hq s hlen]
      simp [pyFalsyStr, hs]

/-- `_default_args` at a constructor-default instance, resolved to the
explicit tokens: only a per-call `color=False` produces an empty token
here, and the dead `self.lock` branch contributes nothing. -/
theorem defaultArgs_tfMk (v : TFVersion) (color lock : Option Bool) (lt : Option Int)
    (input : Option Bool) :
    defaultArgs (tfMk v) color lock lt input =
      (match color with
       | some c => [if c then "-no-color" else ""]
       | Option.none => [])
      ++ (if lock = some false then ["-lock=false"] else [])
      ++ (match lt with
          | some t => if 0 < t then ["-lock-timeout=" ++ pyStr (.int t)] else []
          | Option.none => [])
      ++ [match input with
          | some i => if i then "-input=true" else "-input=false"
          | Option.none => "-input=false"] := by
  have hcol : ∀ b, buildArgD "color" (.bool b) = if b then "-no-color" else "" :=
    buildArgD_bare "color" "-no-color" rfl (by decide)
  have hlock : buildArgD "lock" (.bool false) = "-lock=false" := by decide
  have hlt : ∀ i, buildArgD "lock_timeout" (.int i) = "-lock-timeout=" ++ pyStr (.int i) :=
    buildArgD_int "lock_timeout" "-lock-timeout=" rfl rfl
  have hinp : ∀ b, buildArgD "input" (.bool b) = if b then "-input=true" else "-input=false" := by
    intro b
    cases b <;> decide
  unfold defaultArgs
  rw [show tfSelfLockIsFalse (tfMk v) = false from rfl,
    show (tfMk v)._color = true from rfl,
    show (tfMk v)._lock_timeout = (0 : Int) from rfl,
    show (tfMk v)._input = false from rfl]
  rcases color with _ | c <;> rcases input with _ | i <;> rcases lt with _ | t <;>
    by_cases hl : lock = some false <;>
      simp [hl, hcol, hlock, hlt, hinp] <;>
        (split <;> simp [*])

/-- `_parse_vars` unrolled: the marker and one `key=value` token per
entry. -/
theorem parseVars_flatMap (vars : List (String × JVal)) :
    parseVars vars = vars.flatMap fun kv => ["-var", kv.1 ++ "=" ++ encodeVar kv.2] := by
  induction vars with
  | nil => rfl
  | cons kv rest ih =>
    obtain ⟨k, w⟩ := kv
    simp [parseVars, ih]

/-! # Theorems settling the claims -/

/-- Claim C1: any stdout whose lines are exactly the `outputs` event, the
`apply_complete` event and the malformed line `not json` aggregates to the
mapping whose `outputs` key is `{"a": 1}` and whose `result` key maps `"x"`
to the full hook payload — with no `changes` key (the field is `none`) and
no exception anywhere (`applyCallback` is total; the malformed line lands in
the `except: pass` branch, i.e. the `jsonLoads = none` case of
`applyStep`). -/
theorem apply_callback_scenario (s : String)
    (h : pySplitlines s = [applyLine1, applyLine2, applyLine3]) :
    applyCallback s =
      ⟨some (.obj [("a", .num 1)]), Option.none, some [(.str "x", hookPayload)]⟩ := by
  unfold applyCallback
  rw [h]
  rfl

/-- Claim C1, witness: the three lines joined by newlines. -/
theorem apply_callback_scenario_witness :
    pySplitlines (applyLine1 ++ "\n" ++ applyLine2 ++ "\n" ++ applyLine3) =
        [applyLine1, applyLine2, applyLine3] ∧
      applyCallback (applyLine1 ++ "\n" ++ applyLine2 ++ "\n" ++ applyLine3) =
        ⟨some (.obj [("a", .num 1)]), Option.none, some [(.str "x", hookPayload)]⟩ :=
  ⟨rfl, apply_callback_scenario (applyLine1 ++ "\n" ++ applyLine2 ++ "\n" ++ applyLine3) rfl⟩

/-- Claim C2, counterexample: the claim says the per-line apply callback
returns normally on every stdout line including ones that are not valid
JSON; on the line `not json` it instead raises (the `json.loads` decode
error is not caught anywhere in `_apply_line_callback`). -/
theorem apply_line_callback_raises_on_malformed :
    applyLineCallback (some "not json") = .error () := by
  rfl

/-- Claim C2, amended: the per-line callback installed by `apply` returns
normally exactly on the falsy lines (`None` or empty) and on lines that
decode as JSON with an `@message` key; any other line raises. -/
theorem apply_line_callback_ok_iff (s : Option String) :
    applyLineCallback s = .ok () ↔
      (s = Option.none ∨ s = some "" ∨
        ∃ j, jsonLoads ((s.getD "")) = some j ∧ (jIndex j "@message").isSome) := by
  match s with
  | Option.none => simp [applyLineCallback]
  | some t =>
    simp only [applyLineCallback, Option.getD]
    by_cases he : t.isEmpty
    · rw [if_pos he]
      simp [(String.isEmpty_iff t).mp he]
    · rw [if_neg he]
      have hne : t ≠ "" := fun h => he ((String.isEmpty_iff t).mpr h)
      match hj : jsonLoads t with
      | Option.none => simp [hj, hne]
      | some j =>
        match hm : jIndex j "@message" with
        | Option.none => simp [hj, hm, hne]
        | some m => simp [hj, hm]

/-- Claim C3, counterexample: the claim says that at engine version 1.0 the
`-json` flag is omitted from a `plan` with `json=True` and a warning is
logged; the source gates on `major >= 1 and minor >= 0`, so at 1.0.0 the
flag is present and no warning is logged. -/
theorem plan_json_at_1_0_counterexample :
    "-json" ∈ (planAssemble tf100 { json := true }).cmd ∧
      (planAssemble tf100 { json := true }).warnings = [] := by
  constructor
  · decide
  · rfl

/-- Claim C3, amended: for a `plan` invocation with `json=True` (remaining
options at their defaults), the `-json` flag is emitted iff the detected
major version is at least 1 (the source's `minor >= 0` conjunct never
discriminates); when the major version is 0 the flag is omitted and the two
gate warnings are logged — the `-json` one naming version 1.0.0 and the
detected version string — and the assembled command still proceeds, headed
by `plan`. -/
theorem plan_json_gate (v : TFVersion) :
    ("-json" ∈ (planAssemble (tfMk v) { json := true }).cmd ↔ 1 ≤ v.major) ∧
      (planAssemble (tfMk v) { json := true }).warnings =
        (if 1 ≤ v.major then [] else [refreshOnlyWarnMsg (tfMk v), jsonWarnMsg (tfMk v)]) ∧
      (planAssemble (tfMk v) { json := true }).cmd.head? = some "plan" := by
  obtain ⟨major, minor, patch, vs⟩ := v
  cases major with
  | zero =>
    have hgate : ¬(1 ≤ 0 ∧ 0 ≤ minor) := fun hc => Nat.not_succ_le_zero 0 hc.1
    have hA : planAssemble (tfMk ⟨0, minor, patch, vs⟩) { json := true } =
        ⟨["plan", "-input=false", "-out=plan.tfplan", "-parallelism=10",
          "", "-refresh=true", "", "", "", "", ""],
         [refreshOnlyWarnMsg (tfMk ⟨0, minor, patch, vs⟩),
          jsonWarnMsg (tfMk ⟨0, minor, patch, vs⟩)]⟩ := by
      simp only [planAssemble, tfMk, if_neg hgate]
      rfl
    rw [hA]
    exact ⟨iff_of_false (by simp) (Nat.not_succ_le_zero 0), by simp, rfl⟩
  | succ m =>
    have hgate : 1 ≤ m + 1 ∧ 0 ≤ minor := ⟨Nat.succ_le_succ (Nat.zero_le m), Nat.zero_le _⟩
    have hA : planAssemble (tfMk ⟨m + 1, minor, patch, vs⟩) { json := true } =
        ⟨["plan", "-input=false", "-out=plan.tfplan", "", "-json", "-parallelism=10",
          "", "-refresh=true", "", "", "", "", ""], []⟩ := by
      simp only [planAssemble, tfMk, if_pos hgate]
      rfl
    rw [hA]
    exact ⟨iff_of_true (by simp) (Nat.succ_le_succ (Nat.zero_le m)), by simp, rfl⟩

/-- Claim C4 (a defect in the source): with an instance constructed with
`lock=False` and no per-call lock override, `_default_args` emits no
`-lock=false` token — the branch reads `self.lock`, the bound method, where
every sibling branch reads the underscore field, so the instance default
can never reach the vector.  At the failing input the whole default-argument
list is just `["-input=false"]`. -/
theorem default_args_lock_method_bug :
    defaultArgs { tf150 with _lock := false } Option.none Option.none Option.none Option.none
        = ["-input=false"] ∧
      "-lock=false" ∉
        defaultArgs { tf150 with _lock := false } Option.none Option.none Option.none
          Option.none := by
  constructor
  · rfl
  · decide

/-- Claim C5, counterexample: the claim says an `apply` with `json=True` at
engine version 0.14.0 echoes raw output; the source computes
`show_output = not json and major >= 1`, which is false whenever
`json=True`, so the echo is suppressed there too. -/
theorem apply_v014_no_echo_counterexample :
    ¬((applyAssemble tf0140 { json := true }).showOutput = true) := by
  decide

/-- Claim C5, amended: an `apply` with `json=True` at version 1.5.0
installs both the per-line and the completion callback, emits `-json` and
suppresses raw echo; the same call at version 0.14.0 omits `-json` and
installs neither callback, but also suppresses raw echo (the `show_output`
conjunction fails on the version test rather than on `json`). -/
theorem apply_json_gate_versions :
    (applyAssemble tf150 { json := true }).lineCallbackInstalled = true ∧
      (applyAssemble tf150 { json := true }).callbackInstalled = true ∧
      "-json" ∈ (applyAssemble tf150 { json := true }).cmd ∧
      (applyAssemble tf150 { json := true }).showOutput = false ∧
      (applyAssemble tf0140 { json := true }).lineCallbackInstalled = false ∧
      (applyAssemble tf0140 { json := true }).callbackInstalled = false ∧
      "-json" ∉ (applyAssemble tf0140 { json := true }).cmd ∧
      (applyAssemble tf0140 { json := true }).showOutput = false := by
  decide

/-- Claim C6: for every option whose flag template ends in `=`,
`_build_arg` of the empty string and of `None` both return the empty token;
an explicit empty string is indistinguishable from an absent value. -/
theorem build_arg_empty_eq_none (p : String × String) (hmem : p ∈ TERRAFORM_ARGS)
    (heq : p.2.back = '=') :
    buildArg p.1 .none = some "" ∧ buildArg p.1 (.str "") = some "" := by
  revert heq
  revert hmem
  revert p
  decide

/-- Claim C6, witness: the value-taking option `out`. -/
theorem build_arg_empty_eq_none_witness :
    ("out", "-out=") ∈ TERRAFORM_ARGS ∧ ("-out=").back = '=' ∧
      (buildArg "out" .none = some "" ∧ buildArg "out" (.str "") = some "") :=
  ⟨by decide, by decide, build_arg_empty_eq_none ("out", "-out=") (by decide) (by decide)⟩

/-- Claim C7, counterexample: the claim says JSON-decoding the value
portion of an emitted token reproduces every original string; for the
string value of one backslash the token is `k="\"` whose value portion is
the three characters quote backslash quote, which `json.loads` rejects
outright (the backslash opens an escape that swallows the closing quote),
so no string is reproduced. -/
theorem parse_vars_backslash_counterexample :
    parseVars [("k", JVal.str "\x5c")] = ["-var", "k=\"\x5c\""] ∧
      jsonLoads "\"\x5c\"" = Option.none := ⟨rfl, rfl⟩

/-- Claim C7, amended: `_parse_vars` emits the marker and one
`key=<encoded value>` token per entry; JSON-decoding the value portion
reproduces the original value exactly for dict and list inputs, and for
those string inputs that contain no backslash and no control character —
not for every string. -/
theorem parse_vars_roundtrip (vars : List (String × JVal)) (v : JVal) :
    parseVars vars =
        vars.flatMap (fun kv => ["-var", kv.1 ++ "=" ++ encodeVar kv.2]) ∧
      ((∃ kvs, v = JVal.obj kvs) ∨ (∃ xs, v = JVal.arr xs) →
        jsonLoads (encodeVar v) = some v) ∧
      (∀ s, v = JVal.str s → (∀ c ∈ s.data, c ≠ '\x5c' ∧ 32 ≤ c.toNat) →
        jsonLoads (encodeVar v) = some v) := by
  refine ⟨?_, ?_, ?_⟩
  · induction vars with
    | nil => rfl
    | cons kv rest ih =>
      obtain ⟨k, w⟩ := kv
      simp [parseVars, ih]
  · rintro (⟨kvs, rfl⟩ | ⟨xs, rfl⟩)
    · exact jsonLoads_dumps (JVal.obj kvs)
    · exact jsonLoads_dumps (JVal.arr xs)
  · rintro s rfl hplain
    rw [encodeVar_str_plain s hplain]
    exact jsonLoads_dumps (JVal.str s)

/-- Claim C7, witness: a one-member dict rebuilt from its encoded value
portion, and a plain two-character string likewise. -/
theorem parse_vars_roundtrip_witness :
    jsonLoads (encodeVar (JVal.obj [("b", JVal.num 1)])) =
        some (JVal.obj [("b", JVal.num 1)]) ∧
      jsonLoads (encodeVar (JVal.str "ab")) = some (JVal.str "ab") :=
  ⟨(parse_vars_roundtrip [] (JVal.obj [("b", JVal.num 1)])).2.1
      (Or.inl ⟨[("b", JVal.num 1)], rfl⟩),
   (parse_vars_roundtrip [] (JVal.str "ab")).2.2 "ab" rfl (by decide)⟩

/-- Claim C8: a destroy whose subprocess reports failure always raises the
destroy-specific failure, carrying the joined command, the captured stderr
and the duration; a succeeding destroy returns `True`.  No falsy success
value can be returned. -/
theorem destroy_raises_on_failure (self : TF) (p : DestroyParams) (r : CommandResult) :
    (r.success = false →
        destroyRun self p r = .error (.destroyError "Failed to destroy terraform resources"
          (String.intercalate " " (destroyCmd self p)) r.stderr r.duration)) ∧
      (r.success = true → destroyRun self p r = .ok true) := by
  constructor <;> intro h <;> simp [destroyRun, h]

/-- Claim C8, witness: a failing and a succeeding destroy at the default
instance. -/
theorem destroy_raises_on_failure_witness :
    destroyRun tf150 {} ⟨false, "", "boom", 3⟩ =
        .error (.destroyError "Failed to destroy terraform resources"
          (String.intercalate " " (destroyCmd tf150 {})) "boom" 3) ∧
      destroyRun tf150 {} ⟨true, "", "", 2⟩ = .ok true :=
  ⟨(destroy_raises_on_failure tf150 {} ⟨false, "", "boom", 3⟩).1 rfl,
   (destroy_raises_on_failure tf150 {} ⟨true, "", "", 2⟩).2 rfl⟩

/-- Claim C9: a `show` whose subprocess reports a failing exit raises no
operation-specific failure — whatever the exit status, the caller receives
the captured stdout, `json.loads`-decoded when `json` was requested and raw
otherwise, and the only error that can escape is the JSON decode error. -/
theorem show_failure_only_logged (self : TF) (file : Option String) (json : Bool)
    (color : Option Bool) (r : CommandResult) (hfail : r.success = false) :
    (json = false → showRun self file json color r = .ok (.raw r.stdout)) ∧
      (∀ v, jsonLoads r.stdout = some v → json = true →
        showRun self file json color r = .ok (.jsonOut v)) ∧
      (∀ e, showRun self file json color r = .error e → e = .jsonDecode r.stdout) := by
  refine ⟨fun hj => by simp [showRun, hj], fun v hv hj => by simp [showRun, hj, hv], ?_⟩
  intro e he
  by_cases hj : json
  · revert he
    simp only [showRun, hj, if_true]
    match hv : jsonLoads r.stdout with
    | some v => simp
    | Option.none => intro he; cases he; rfl
  · simp [showRun, hj] at he

/-- Claim C9, witness: a failing `show` at the default instance, in json
and in raw mode. -/
theorem show_failure_only_logged_witness :
    showRun tf150 Option.none false Option.none ⟨false, "partial out", "err", 1⟩ =
        .ok (.raw "partial out") ∧
      showRun tf150 Option.none true Option.none ⟨false, "{}", "err", 1⟩ =
        .ok (.jsonOut (.obj [])) :=
  ⟨(show_failure_only_logged tf150 Option.none false Option.none
      ⟨false, "partial out", "err", 1⟩ rfl).1 rfl,
   (show_failure_only_logged tf150 Option.none true Option.none
      ⟨false, "{}", "err", 1⟩ rfl).2.1 (.obj []) rfl rfl⟩

/-- Claim C10, counterexample: the claim says the vector carries an
empty-string token for every boolean option passed `False`; at engine
version 0.14.0 the whole `json` append site of `apply` sits inside the
`major >= 1` gate, so `json=False` yields no element at all there — the
default `apply` vector at 0.14.0 has five empty tokens (auto-approve,
compact-warnings, state, state-out, backup) against six at 1.5.0, where
the sixth is the one the `json` site appends. -/
theorem gated_option_no_token_counterexample :
    (applyAssemble tf150 {}).cmd =
        ["apply", "-input=false", "", "-parallelism=10", "", "", "", "", "", "plan.tfplan"] ∧
      (applyAssemble tf0140 {}).cmd =
        ["apply", "-input=false", "-parallelism=10", "", "", "", "", "", "plan.tfplan"] ∧
      (applyAssemble tf150 {}).cmd.count "" = 6 ∧
      (applyAssemble tf0140 {}).cmd.count "" = 5 :=
  ⟨rfl, rfl, by decide, by decide⟩

/-- Claim C10, amended: for every engine version and every parameter
valuation, the four routines append every `_build_arg` result they build
unfiltered, so each built option with a falsy value — a bare-flag boolean
passed `False`, a value-taking option passed `None` or the empty string —
contributes an empty-string element at its fixed position, as the
characterizations below make explicit.  The claim's universal conclusion
fails only at the build sites skipped outright: `plan`'s refresh-only and
json sites and `apply`'s json site below major version 1, and `init`'s
readonly, backend, get and get-plugins sites at their default
truthiness. -/
theorem empty_token_append_characterization (v : TFVersion) (pp : PlanParams)
    (ap : ApplyParams) (ip : InitParams) (dp : DestroyParams) :
    (planAssemble (tfMk v) pp).cmd =
      "plan" ::
        ((match pp.color with
          | some c => [if c then "-no-color" else ""]
          | Option.none => [])
        ++ (if pp.lock = some false then ["-lock=false"] else [])
        ++ (match pp.lock_timeout with
            | some t => if 0 < t then ["-lock-timeout=" ++ pyStr (.int t)] else []
            | Option.none => [])
        ++ [match pp.input with
            | some i => if i then "-input=true" else "-input=false"
            | Option.none => "-input=false"]
        ++ [if pyFalsyStr pp.out then "-out=plan.tfplan" else "-out=" ++ pp.out.getD ""]
        ++ (if 1 ≤ v.major then
              [if pp.refresh_only then "-refresh-only" else "",
               if pp.json then "-json" else ""]
            else [])
        ++ [if pyFalsyInt pp.parallelism then "-parallelism=10"
            else "-parallelism=" ++ pyStr (.int (pp.parallelism.getD 0))]
        ++ [if pp.destroy then "-destroy" else "",
            (match pp.refresh with
             | some b => if b then "-refresh=true" else "-refresh=false"
             | Option.none => ""),
            if pyFalsyStr pp.replace then "" else "-replace=" ++ pp.replace.getD "",
            if pyFalsyStr pp.target then "" else "-target=" ++ pp.target.getD "",
            if pyFalsyStr pp.var_file then "" else "-var-file=" ++ pp.var_file.getD "",
            if pyFalsyStr pp.state then "" else "-state=" ++ pp.state.getD "",
            if pp.compact_warnings then "-compact-warnings" else ""]
        ++ pp.vars.flatMap fun kv => ["-var", kv.1 ++ "=" ++ encodeVar kv.2]) ∧
    (applyAssemble (tfMk v) ap).cmd =
      "apply" ::
        ((match ap.color with
          | some c => [if c then "-no-color" else ""]
          | Option.none => [])
        ++ (if ap.lock = some false then ["-lock=false"] else [])
        ++ (match ap.lock_timeout with
            | some t => if 0 < t then ["-lock-timeout=" ++ pyStr (.int t)] else []
            | Option.none => [])
        ++ [match ap.input with
            | some i => if i then "-input=true" else "-input=false"
            | Option.none => "-input=false"]
        ++ (if 1 ≤ v.major then [if ap.json then "-json" else ""] else [])
        ++ [if pyFalsyInt ap.parallelism then "-parallelism=10"
            else "-parallelism=" ++ pyStr (.int (ap.parallelism.getD 0))]
        ++ [if ap.auto_approve then "-auto-approve" else "",
            if ap.compact_warnings then "-compact-warnings" else "",
            if pyFalsyStr ap.state then "" else "-state=" ++ ap.state.getD "",
            if pyFalsyStr ap.state_out then "" else "-state-out=" ++ ap.state_out.getD "",
            if pyFalsyStr ap.backup then "" else "-backup=" ++ ap.backup.getD ""]
        ++ [if pyFalsyStr ap.plan_file then "plan.tfplan"
            else shlexQuote (ap.plan_file.getD "")]) ∧
    initCmd (tfMk v) ip =
      "init" ::
        ((if ip.readonly then ["-lockfile=readonly"] else [])
        ++ (match ip.color with
            | some c => [if c then "-no-color" else ""]
            | Option.none => [])
        ++ (if ip.lock = some false then ["-lock=false"] else [])
        ++ (match ip.lock_timeout with
            | some t => if 0 < t then ["-lock-timeout=" ++ pyStr (.int t)] else []
            | Option.none => [])
        ++ [match ip.input with
            | some i => if i then "-input=true" else "-input=false"
            | Option.none => "-input=false"]
        ++ [if ip.upgrade then "-upgrade" else "",
            if ip.reconfigure then "-reconfigure" else "",
            if ip.migrate_state then "-migrate-state" else "",
            if ip.force_copy then "-force-copy" else "",
            if pyFalsyStr ip.backend_config then ""
            else "-backend-config=" ++ ip.backend_config.getD "",
            if pyFalsyStr ip.plugin_dir then "" else "-plugin-dir=" ++ ip.plugin_dir.getD ""]
        ++ (if ip.backend then [] else ["-backend=false"])
        ++ (if ip.get then [] else ["-get=false"])
        ++ (if ip.get_plugins then [] else ["-get-plugins=false"])) ∧
    destroyCmd (tfMk v) dp =
      "destroy" ::
        ((match dp.color with
          | some c => [if c then "-no-color" else ""]
          | Option.none => [])
        ++ (if dp.lock = some false then ["-lock=false"] else [])
        ++ (match dp.lock_timeout with
            | some t => if 0 < t then ["-lock-timeout=" ++ pyStr (.int t)] else []
            | Option.none => [])
        ++ [match dp.input with
            | some i => if i then "-input=true" else "-input=false"
            | Option.none => "-input=false"]
        ++ [if pyFalsyInt dp.parallelism then "-parallelism=10"
            else "-parallelism=" ++ pyStr (.int (dp.parallelism.getD 0))]
        ++ [if dp.auto_approve then "-auto-approve" else "",
            if pyFalsyStr dp.target then "" else "-target=" ++ dp.target.getD "",
            if pyFalsyStr dp.var_file then "" else "-var-file=" ++ dp.var_file.getD ""]
        ++ dp.vars.flatMap fun kv => ["-var", kv.1 ++ "=" ++ encodeVar kv.2]) := by
  have hpar10 : buildArgD "parallelism" (.int 10) = "-parallelism=10" := by decide
  have hpar : ∀ i, buildArgD "parallelism" (.int i) = "-parallelism=" ++ pyStr (.int i) :=
    buildArgD_int "parallelism" "-parallelism=" rfl (by decide)
  have htgt : ∀ o, buildArgD "target" (optStrPy o) =
      if pyFalsyStr o then "" else "-target=" ++ o.getD "" :=
    buildArgD_optStr "target" "-target=" rfl (by decide)
  have hvf : ∀ o, buildArgD "var_file" (optStrPy o) =
      if pyFalsyStr o then "" else "-var-file=" ++ o.getD "" :=
    buildArgD_optStr "var_file" "-var-file=" rfl (by decide)
  have haa : ∀ b, buildArgD "auto_approve" (.bool b) = if b then "-auto-approve" else "" :=
    buildArgD_bare "auto_approve" "-auto-approve" rfl (by decide)
  have hcw : ∀ b, buildArgD "compact_warnings" (.bool b) =
      if b then "-compact-warnings" else "" :=
    buildArgD_bare "compact_warnings" "-compact-warnings" rfl (by decide)
  have hjson : ∀ b, buildArgD "json" (.bool b) = if b then "-json" else "" :=
    buildArgD_bare "json" "-json" rfl (by decide)
  refine ⟨?_, ?_, ?_, ?_⟩
  · obtain ⟨out, destroy, refresh, refresh_only, replace, target, vars, var_file,
      compact_warnings, input, json, lock, lock_timeout, color, parallelism, state⟩ := pp
    have hro : ∀ b, buildArgD "refresh_only" (.bool b) = if b then "-refresh-only" else "" :=
      buildArgD_bare "refresh_only" "-refresh-only" rfl (by decide)
    have hdes : ∀ b, buildArgD "destroy" (.bool b) = if b then "-destroy" else "" :=
      buildArgD_bare "destroy" "-destroy" rfl (by decide)
    have hrepl : ∀ o, buildArgD "replace" (optStrPy o) =
        if pyFalsyStr o then "" else "-replace=" ++ o.getD "" :=
      buildArgD_optStr "replace" "-replace=" rfl (by decide)
    have hstate : ∀ o, buildArgD "state" (optStrPy o) =
        if pyFalsyStr o then "" else "-state=" ++ o.getD "" :=
      buildArgD_optStr "state" "-state=" rfl (by decide)
    have hrefresh : ∀ o : Option Bool, buildArgD "refresh" (optBoolPy o) =
        (match o with
         | some b => if b then "-refresh=true" else "-refresh=false"
         | Option.none => "") := by
      intro o
      rcases o with _ | b
      · rfl
      · cases b <;> decide
    have hout : (if pyFalsyStr out then buildArgD "out" (.str "plan.tfplan")
          else buildArgD "out" (.str (out.getD ""))) =
        (if pyFalsyStr out then "-out=plan.tfplan" else "-out=" ++ out.getD "") := by
      rcases out with _ | s
      · simp only [pyFalsyStr, if_true]
        decide
      · by_cases hs : s.isEmpty = true
        · simp only [pyFalsyStr, hs, if_true]
          decide
        · have hlen : ¬(s.length = 0) := fun h0 =>
            hs ((String.isEmpty_iff s).mpr ((string_length_zero_iff s).mp h0))
          simp only [pyFalsyStr, hs, if_false, Option.getD_some]
          exact buildArgD_str_ne "out" "-out=" rfl (by decide) s hlen
    simp only [planAssemble]
    rw [show (tfMk v)._version = v from rfl, show (tfMk v)._planfile = "plan.tfplan" from rfl,
      show (tfMk v)._paralellism = (10 : Int) from rfl]
    rw [defaultArgs_tfMk, hout, hro refresh_only, hjson json, hdes destroy,
      hrefresh refresh, hrepl replace, htgt target, hvf var_file, hstate state,
      hcw compact_warnings, parseVars_flatMap]
    by_cases hg : 1 ≤ v.major
    · simp only [if_pos (⟨hg, Nat.zero_le _⟩ : 1 ≤ v.major ∧ 0 ≤ v.minor), if_pos hg]
      by_cases hpf : pyFalsyInt parallelism = true
      · simp only [if_pos hpf, hpar10]
        simp [List.append_assoc]
      · simp only [if_neg hpf, hpar]
        simp [List.append_assoc]
    · simp only [if_neg (fun hc => hg hc.1 :
        ¬(1 ≤ v.major ∧ 0 ≤ v.minor)), if_neg hg]
      by_cases hpf : pyFalsyInt parallelism = true
      · simp only [if_pos hpf, hpar10]
        simp [List.append_assoc]
      · simp only [if_neg hpf, hpar]
        simp [List.append_assoc]
  · obtain ⟨plan_file, auto_approve, compact_warnings, input, json, lock, lock_timeout,
      color, parallelism, state, state_out, backup⟩ := ap
    have hstate : ∀ o, buildArgD "state" (optStrPy o) =
        if pyFalsyStr o then "" else "-state=" ++ o.getD "" :=
      buildArgD_optStr "state" "-state=" rfl (by decide)
    have hso : ∀ o, buildArgD "state_out" (optStrPy o) =
        if pyFalsyStr o then "" else "-state-out=" ++ o.getD "" :=
      buildArgD_optStr "state_out" "-state-out=" rfl (by decide)
    have hbk : ∀ o, buildArgD "backup" (optStrPy o) =
        if pyFalsyStr o then "" else "-backup=" ++ o.getD "" :=
      buildArgD_optStr "backup" "-backup=" rfl (by decide)
    have hshlex : shlexQuote "plan.tfplan" = "plan.tfplan" := by decide
    simp only [applyAssemble]
    rw [show (tfMk v)._version = v from rfl, show (tfMk v)._planfile = "plan.tfplan" from rfl,
      show (tfMk v)._paralellism = (10 : Int) from rfl]
    rw [defaultArgs_tfMk, haa auto_approve, hcw compact_warnings, hstate state,
      hso state_out, hbk backup, hshlex]
    by_cases hg : 1 ≤ v.major
    · simp only [if_pos hg]
      rw [hjson json]
      by_cases hpf : pyFalsyInt parallelism = true
      · simp only [if_pos hpf, hpar10]
        simp [List.append_assoc]
      · simp only [if_neg hpf, hpar]
        simp [List.append_assoc]
    · simp only [if_neg hg]
      by_cases hpf : pyFalsyInt parallelism = true
      · simp only [if_pos hpf, hpar10]
        simp [List.append_assoc]
      · simp only [if_neg hpf, hpar]
        simp [List.append_assoc]
  · obtain ⟨color, lock, lock_timeout, input, upgrade, reconfigure, migrate_state,
      force_copy, backend, backend_config, get, get_plugins, plugin_dir, readonly⟩ := ip
    have hup : ∀ b, buildArgD "upgrade" (.bool b) = if b then "-upgrade" else "" :=
      buildArgD_bare "upgrade" "-upgrade" rfl (by decide)
    have hrc : ∀ b, buildArgD "reconfigure" (.bool b) = if b then "-reconfigure" else "" :=
      buildArgD_bare "reconfigure" "-reconfigure" rfl (by decide)
    have hms : ∀ b, buildArgD "migrate_state" (.bool b) = if b then "-migrate-state" else "" :=
      buildArgD_bare "migrate_state" "-migrate-state" rfl (by decide)
    have hfc : ∀ b, buildArgD "force_copy" (.bool b) = if b then "-force-copy" else "" :=
      buildArgD_bare "force_copy" "-force-copy" rfl (by decide)
    have hbc : ∀ o, buildArgD "backend_config" (optStrPy o) =
        if pyFalsyStr o then "" else "-backend-config=" ++ o.getD "" :=
      buildArgD_optStr "backend_config" "-backend-config=" rfl (by decide)
    have hpd : ∀ o, buildArgD "plugin_dir" (optStrPy o) =
        if pyFalsyStr o then "" else "-plugin-dir=" ++ o.getD "" :=
      buildArgD_optStr "plugin_dir" "-plugin-dir=" rfl (by decide)
    have hbe : buildArgD "backend" (.bool false) = "-backend=false" := by decide
    have hget : buildArgD "get" (.bool false) = "-get=false" := by decide
    have hgp : buildArgD "get_plugins" (.bool false) = "-get-plugins=false" := by decide
    have hrdo : buildArgD "readonly" (.bool true) = "-lockfile=readonly" := by decide
    simp only [initCmd]
    rw [defaultArgs_tfMk, hup upgrade, hrc reconfigure, hms migrate_state,
      hfc force_copy, hbc backend_config, hpd plugin_dir]
    cases readonly <;> cases backend <;> cases get <;> cases get_plugins <;>
      simp [hbe, hget, hgp, hrdo, List.append_assoc]
  · obtain ⟨target, vars, var_file, auto_approve, input, color, lock, lock_timeout,
      parallelism⟩ := dp
    simp only [destroyCmd]
    rw [show (tfMk v)._paralellism = (10 : Int) from rfl]
    rw [defaultArgs_tfMk, haa auto_approve, htgt target, hvf var_file, parseVars_flatMap]
    by_cases hpf : pyFalsyInt parallelism = true
    · simp only [if_pos hpf, hpar10]
      simp [List.append_assoc]
    · simp only [if_neg hpf, hpar]
      simp [List.append_assoc]

end Terraform
